import Mathlib

/-!
Verification of the minim single-bottleneck network simulator.

This file gives a shallow embedding of the core of the simulator — the
DCTCP per-flow sender state machine (src/flow.rs), the per-source flow
multiplexer (src/entities/source.rs), the DRR port (src/port.rs), the
bottleneck (src/entities/bottleneck.rs) and the driver's configuration
check (src/driver.rs) — and proves or refutes the behavioural claims made
about them.

Machine integers (u64/u128/usize in the source) are modelled as Nat;
none of the claims below exercises wrap-around behaviour.  The source's
f64 quantities (alpha, gain, the scale_by/length conversions) are
modelled as exact rationals with explicit round-to-nearest where the
source rounds; IEEE rounding error and NaN propagation are outside the
scope of this embedding and are flagged where they could matter.
-/

namespace Minim

/-- Round-to-nearest of a rational to a natural number, rounding .5 away
from zero for the non-negative arguments that occur here; negative
results collapse to 0 like Rust's float-to-u64 cast.  Models Rust's
`f64::round()` followed by `as u64` in `scale_by` (src/units.rs). -/
def rnd (q : ℚ) : ℕ := (Int.floor (q + 1/2)).toNat

/-- Rust's `f64::clamp(lo, hi)` on ordinary (non-NaN) values. -/
def clampQ (x lo hi : ℚ) : ℚ := max lo (min x hi)

/-- `BitsPerSec::length` (src/units.rs): nanoseconds needed to transmit
`size` bytes at `rate` bits per second, rounded to nearest.  The source
asserts `rate ≠ 0`; the value at `rate = 0` is never used. -/
def length_ns (rate size : ℕ) : ℕ :=
  if size = 0 then 0 else rnd ((size : ℚ) * 1000000000 * 8 / (rate : ℚ))

/-- `Packet::min_count_in` (src/packet.rs lines 37-43): the packet count
the source attributes to `size` bytes: 0 for 0 bytes, otherwise
`size / sz_pktmax + 1` (integer division). -/
def min_count_in (size szMax : ℕ) : ℕ :=
  if size = 0 then 0 else size / szMax + 1

/-- A packet (src/packet.rs, with the q_index routing field of the
spec's data model that the DRR port keys on; the tracing timestamps
are omitted).  Sizes and delays are in bytes and nanoseconds. -/
structure Packet where
  flow_id : ℕ
  source_id : ℕ
  qindex : ℕ
  size : ℕ
  src2btl : ℕ
  btl2dst : ℕ
  is_last : Bool
deriving DecidableEq, Repr

/-- An acknowledgment (src/packet.rs). -/
structure Ack where
  nr_bytes : ℕ
  marked : Bool
deriving DecidableEq, Repr

/-- The DCTCP congestion-avoidance state (src/flow.rs): `zero` is the
spec's Open state, `one` is Reducing. -/
inductive CaState
  | zero
  | one
deriving DecidableEq, Repr

/-- The DCTCP sender state of one flow (src/flow.rs, struct Flow). -/
structure Flow where
  id : ℕ
  source : ℕ
  size : ℕ
  src2btl : ℕ
  btl2dst : ℕ
  rate : ℕ
  min_rate : ℕ
  max_rate : ℕ
  tnext : ℕ
  window : ℕ
  snd_nxt : ℕ
  snd_una : ℕ
  alpha : ℚ
  gain : ℚ
  additive_inc : ℕ
  last_update_seq : ℕ
  batch_size : ℕ
  marked_count : ℕ
  ca_state : CaState
  high_seq : ℕ
deriving DecidableEq, Repr

/-- `Flow::bytes_left` (src/flow.rs): `size.saturating_sub(snd_nxt)`. -/
def Flow.bytes_left (f : Flow) : ℕ := f.size - f.snd_nxt

/-- `Flow::on_the_fly` (src/flow.rs): `snd_nxt - snd_una`. -/
def Flow.on_the_fly (f : Flow) : ℕ := f.snd_nxt - f.snd_una

/-- `Flow::variable_window` (src/flow.rs):
`window.scale_by(rate / max_rate)`. -/
def Flow.variable_window (f : Flow) : ℕ :=
  rnd ((f.window : ℚ) * ((f.rate : ℚ) / (f.max_rate : ℚ)))

/-- `Flow::usable_window` (src/flow.rs):
`variable_window().saturating_sub(on_the_fly())`. -/
def Flow.usable_window (f : Flow) : ℕ := f.variable_window - f.on_the_fly

/-- `Flow::is_rate_bound` (src/flow.rs): `tnext > now`. -/
def Flow.is_rate_bound (f : Flow) (now : ℕ) : Bool := decide (now < f.tnext)

/-- `Flow::is_win_bound` (src/flow.rs): `usable_window() == 0`. -/
def Flow.is_win_bound (f : Flow) : Bool := decide (f.usable_window = 0)

/-- `Flow::next_packet` (src/flow.rs lines 83-105).  The payload is
capped by the remaining flow size, the maximum packet size and the
usable window; `snd_nxt` advances by the payload, `tnext` becomes
`now + length(pkt_size, rate)`, and `is_last` is read off after the
`snd_nxt` update.  The source asserts `bytes_left > 0` and
`usable_window > 0` on entry; those preconditions appear as hypotheses
of the theorems below.  The flow-level source never assigns a DRR
queue index, so the `qindex` field is filled with 0 here and is only
meaningful for the hand-routed packets of the port model. -/
def Flow.next_packet (szMax szHdr : ℕ) (f : Flow) (now : ℕ) : Packet × Flow :=
  let sz_payload := min (min f.bytes_left szMax) f.usable_window
  let sz_pkt := sz_payload + szHdr
  let f' : Flow :=
    { f with snd_nxt := f.snd_nxt + sz_payload,
             tnext := now + length_ns f.rate sz_pkt }
  ( { flow_id := f.id, source_id := f.source, qindex := 0, size := sz_pkt,
      src2btl := f.src2btl, btl2dst := f.btl2dst,
      is_last := decide (f'.bytes_left = 0) }, f' )

/-- The alpha/batch update of `Flow::rcv_ack` (src/flow.rs lines
114-127), run after `snd_una` and `marked_count` have been advanced.
Returns the updated flow and the `new_batch` flag. -/
def Flow.batch_update (szMax : ℕ) (f : Flow) : Flow × Bool :=
  if f.last_update_seq < f.snd_una then
    if f.last_update_seq = 0 then
      ({ f with batch_size := min_count_in f.snd_nxt szMax,
                last_update_seq := f.snd_nxt }, true)
    else
      let frac := clampQ ((f.marked_count : ℚ) / (f.batch_size : ℚ)) 0 1
      ({ f with alpha := (1 - f.gain) * f.alpha + f.gain * frac,
                marked_count := 0,
                batch_size := min_count_in (f.snd_nxt - f.snd_una) szMax,
                last_update_seq := f.snd_nxt }, true)
  else (f, false)

/-- The rate update of `Flow::rcv_ack` (src/flow.rs lines 132-144),
run with the original ack's `marked` flag and the `new_batch` flag.
Note that the additive increase runs in the same call as a reduction
when both conditions hold, because the source checks `ca_state` once
at the top of the block. -/
def Flow.rate_update (f : Flow) (marked new_batch : Bool) : Flow :=
  if f.ca_state = CaState.zero then
    let fA :=
      if marked then
        { f with rate := max f.min_rate (rnd ((f.rate : ℚ) * (1 - f.alpha / 2))),
                 ca_state := CaState.one,
                 high_seq := f.snd_nxt }
      else f
    if new_batch then { fA with rate := min fA.max_rate (fA.rate + fA.additive_inc) }
    else fA
  else f

/-- The entry of `Flow::rcv_ack` (src/flow.rs lines 109-113):
`snd_una += ack.nr_bytes` and, for a marked ack,
`marked_count += 1`. -/
def Flow.ack_register (f : Flow) (a : Ack) : Flow :=
  if a.marked then
    { f with snd_una := f.snd_una + a.nr_bytes, marked_count := f.marked_count + 1 }
  else { f with snd_una := f.snd_una + a.nr_bytes }

/-- The congestion-state check of `Flow::rcv_ack` (src/flow.rs lines
129-131): leave the Reducing state once `snd_una` passes
`high_seq`. -/
def Flow.ca_open_check (f : Flow) : Flow :=
  if f.ca_state = CaState.one ∧ f.high_seq < f.snd_una then
    { f with ca_state := CaState.zero }
  else f

/-- `Flow::rcv_ack` (src/flow.rs lines 108-145): advance `snd_una`,
count the mark, run the batch/alpha update, possibly leave the
Reducing state, then run the rate update. -/
def Flow.rcv_ack (szMax : ℕ) (f : Flow) (a : Ack) : Flow :=
  let fb := (f.ack_register a).batch_update szMax
  (fb.1.ca_open_check).rate_update a.marked fb.2

/-- The flow built by `Source::flow_arrive` (src/entities/source.rs
lines 103-115) through `Flow::builder()` (src/flow.rs): `rate` and
`max_rate` are the source's link rate, `min_rate` defaults to
1 Gbps, `tnext` is the arrival time, `alpha` starts at 1.0 and the
sequence/batch counters at zero. -/
def mkFlow (id source size link_rate now src2btl btl2dst window : ℕ)
    (gain : ℚ) (additive_inc : ℕ) : Flow :=
  { id := id, source := source, size := size, src2btl := src2btl,
    btl2dst := btl2dst, rate := link_rate, min_rate := 1000000000,
    max_rate := link_rate, tnext := now, window := window,
    snd_nxt := 0, snd_una := 0, alpha := 1, gain := gain,
    additive_inc := additive_inc, last_update_seq := 0, batch_size := 0,
    marked_count := 0, ca_state := CaState.zero, high_seq := 0 }

/-- The DRR port state (src/port.rs, struct Port).  Each sub-queue is a
FIFO list of packets; `quanta`, `deficits`, the rotating `counter` and
the `should_bump` flag are as in the source. -/
structure Port where
  queues : List (List Packet)
  quanta : List ℕ
  deficits : List ℕ
  counter : ℕ
  should_bump : Bool
deriving DecidableEq, Repr

/-- `Port::new` (src/port.rs): one empty queue per quantum, zero
deficits, counter 0, `should_bump = true`. -/
def Port.new (quanta : List ℕ) : Port :=
  { queues := quanta.map (fun _ => []), quanta := quanta,
    deficits := quanta.map (fun _ => 0), counter := 0, should_bump := true }

/-- The sub-queue at index `i` (empty for an out-of-range index). -/
def qAt (s : Port) (i : ℕ) : List Packet := s.queues.getD i []

/-- The deficit at index `i`. -/
def defAt (s : Port) (i : ℕ) : ℕ := s.deficits.getD i 0

/-- The head packet's size at index `i` (0 for an empty sub-queue). -/
def costAt (s : Port) (i : ℕ) : ℕ :=
  match qAt s i with
  | [] => 0
  | p :: _ => p.size

/-- The first loop of `Port::pick_dequeue_index` (src/port.rs lines
36-49): starting from `counter`, clear the deficit of every empty
queue encountered and advance; stop with `true` at the first non-empty
queue, or with `false` (the source's early `return None`) once
`counter - start` reaches the number of queues.  The fuel argument is
exactly `n - (counter - start)` and starts at `n`. -/
def drrSkip : ℕ → Port → Bool × Port
  | 0, s => (false, s)
  | r + 1, s =>
    if (s.queues.getD (s.counter % s.queues.length) []).isEmpty then
      drrSkip r { s with deficits := s.deficits.set (s.counter % s.queues.length) 0,
                         counter := s.counter + 1, should_bump := true }
    else (true, s)

/-- The deficit bump of the second loop (src/port.rs lines 62-65):
when `should_bump` is set, credit the sub-queue at `idx` with its
quantum and clear the flag. -/
def bumpAt (s : Port) (idx : ℕ) : Port :=
  if s.should_bump then
    { s with deficits := s.deficits.set idx
               (s.deficits.getD idx 0 + s.quanta.getD idx 0),
             should_bump := false }
  else s

/-- The second loop of `Port::pick_dequeue_index` (src/port.rs lines
53-75): clear and skip empty queues; bump the deficit of the current
non-empty queue by its quantum when `should_bump` is set; if the
deficit covers the head packet's size, spend it and return the index,
otherwise advance.  The source's loop has no explicit bound; here it
carries fuel, and the termination theorem shows that the fuel chosen
in `pick_dequeue_index` is never exhausted when all quanta are
positive. -/
def drrLoop : ℕ → Port → Option (ℕ × Port)
  | 0, _ => none
  | f + 1, s =>
    match s.queues.getD (s.counter % s.queues.length) [] with
    | [] =>
      drrLoop f { s with deficits := s.deficits.set (s.counter % s.queues.length) 0,
                         counter := s.counter + 1, should_bump := true }
    | pkt :: _ =>
      if pkt.size ≤ (bumpAt s (s.counter % s.queues.length)).deficits.getD
          (s.counter % s.queues.length) 0 then
        some (s.counter % s.queues.length,
          { bumpAt s (s.counter % s.queues.length) with
              deficits := (bumpAt s (s.counter % s.queues.length)).deficits.set
                (s.counter % s.queues.length)
                ((bumpAt s (s.counter % s.queues.length)).deficits.getD
                  (s.counter % s.queues.length) 0 - pkt.size) })
      else
        drrLoop f { bumpAt s (s.counter % s.queues.length) with
                      counter := s.counter + 1, should_bump := true }

/-- `Port::pick_dequeue_index` (src/port.rs lines 29-76).  A result of
`none` means the unbounded second loop of the source ran out of the
fuel chosen here; the termination theorem shows this never happens
when all quanta are positive.  `some (none, s)` is the source's
`None` (all queues empty), `some (some i, s)` its `Some(idx)`. -/
def pick_dequeue_index (s : Port) : Option (Option ℕ × Port) :=
  match drrSkip s.queues.length s with
  | (false, s1) => some (none, s1)
  | (true, s1) =>
    (drrLoop (s1.queues.length * costAt s1 (s1.counter % s1.queues.length) +
      s1.queues.length + 1) s1).map
      (fun r => (some r.1, r.2))

/-- Total queued bytes over all sub-queues of the port; the quantity
the bottleneck's `qsize` field tracks. -/
def portBytes (s : Port) : ℕ := (s.queues.map (fun q => (q.map Packet.size).sum)).sum

/-- Enqueue into the sub-queue selected by the packet's `q_index`
(`Receive` in spec section 4.5; the Port-backed queueing discipline of
src/port.rs as exercised by its tests). -/
def Port.enqueue (s : Port) (p : Packet) : Port :=
  { s with queues := s.queues.set p.qindex ((s.queues.getD p.qindex []) ++ [p]) }

/-- Dequeue one packet under the DRR discipline: pick the index, then
pop that sub-queue's head.  `none` is fuel exhaustion propagated from
`pick_dequeue_index`; `some (none, s)` means every sub-queue was
empty. -/
def Port.dequeueDrr (s : Port) : Option (Option Packet × Port) :=
  match pick_dequeue_index s with
  | none => none
  | some (none, s1) => some (none, s1)
  | some (some i, s1) =>
    match s1.queues.getD i [] with
    | [] => some (none, s1)
    | p :: rest => some (some p, { s1 with queues := s1.queues.set i rest })

/-- The bottleneck status (src/entities/bottleneck.rs). -/
inductive BtlStatus
  | running
  | blocked
deriving DecidableEq, Repr

/-- Events produced by the entities, tagged with the delay (in ns)
from the current instant at which they are scheduled; mirrors the
`Command` variants dispatched by the simulator. -/
inductive Ev
  | btlReceive (pkt : Packet) (delta : ℕ)
  | btlStep (delta : ℕ)
  | srcTrySend (source version delta : ℕ)
  | srcRcvAck (source flow : ℕ) (ack : Ack) (delta : ℕ)
  | srcFlowDepart (source flow delta : ℕ)
deriving DecidableEq, Repr

/-- The bottleneck state (src/entities/bottleneck.rs, struct
Bottleneck), composed with the DRR `Port` as built by the driver
(src/driver.rs lines 69-73).  `qsize` is the aggregate queued byte
count the source maintains across enqueue/dequeue. -/
structure Btl where
  port : Port
  bandwidth : ℕ
  qsize : ℕ
  marking_threshold : ℕ
  status : BtlStatus
deriving DecidableEq, Repr

/-- `Bottleneck::step` (src/entities/bottleneck.rs lines 57-92).
Asserts `status == Running` (modelled as `none`), dequeues via the
DRR port, schedules the next `Step` after the service time, the Ack
after service plus `btl2dst + hrtt`, and — for the last packet of a
flow — the `FlowDepart` after service plus `btl2dst`.  The marking
decision reads the aggregate `qsize` after it has been decremented by
the dequeued packet's size. -/
def Btl.step (szHdr : ℕ) (s : Btl) : Option (List Ev × Btl) :=
  if s.status = BtlStatus.running then
    match s.port.dequeueDrr with
    | none => none
    | some (none, port1) =>
      some ([], { s with port := port1, status := BtlStatus.blocked })
    | some (some pkt, port1) =>
      let qsize1 := s.qsize - pkt.size
      let bw_delta := length_ns s.bandwidth pkt.size
      let prop_delta := pkt.btl2dst + (pkt.src2btl + pkt.btl2dst)
      let marked := decide (s.marking_threshold < qsize1)
      let evs :=
        [Ev.btlStep bw_delta,
         Ev.srcRcvAck pkt.source_id pkt.flow_id
           { nr_bytes := pkt.size - szHdr, marked := marked }
           (bw_delta + prop_delta)] ++
        (if pkt.is_last
         then [Ev.srcFlowDepart pkt.source_id pkt.flow_id (bw_delta + pkt.btl2dst)]
         else [])
      some (evs, { s with port := port1, qsize := qsize1 })
  else none

/-- `Bottleneck::receive` (src/entities/bottleneck.rs lines 43-54):
enqueue and bump `qsize`; if the port was blocked, mark it running and
step it at the same instant. -/
def Btl.receive (szHdr : ℕ) (s : Btl) (pkt : Packet) : Option (List Ev × Btl) :=
  let s1 := { s with port := s.port.enqueue pkt, qsize := s.qsize + pkt.size }
  match s1.status with
  | BtlStatus.running => some ([], s1)
  | BtlStatus.blocked => Btl.step szHdr { s1 with status := BtlStatus.running }

/-- Repeatedly dequeue from the port, collecting the `q_index` of each
dequeued packet and the final port state; used to replay the DRR unit
tests of src/port.rs. -/
def drrSeq : ℕ → Port → List ℕ × Port
  | 0, s => ([], s)
  | k + 1, s =>
    match s.dequeueDrr with
    | some (some p, s') =>
      let r := drrSeq k s'
      (p.qindex :: r.1, r.2)
    | some (none, s') => ([], s')
    | none => ([], s)

/-- A bare packet for port-level tests (only `q_index` and `size`
matter to the scheduler). -/
def mkTestPkt (fid qi sz : ℕ) : Packet :=
  { flow_id := fid, source_id := 0, qindex := qi, size := sz,
    src2btl := 0, btl2dst := 0, is_last := false }

/-- Replay of the `drr_respects_weights` test of src/port.rs: quanta
1:3, six 1-byte packets per queue, service order 0,1,1,1,0,1,1,1,0,0,0,0
and then nothing. -/
example :
    (drrSeq 13
      ((List.flatten (List.replicate 6 [mkTestPkt 0 0 1, mkTestPkt 1 1 1])).foldl
        Port.enqueue (Port.new [1, 3]))).1
      = [0, 1, 1, 1, 0, 1, 1, 1, 0, 0, 0, 0] := by
  decide

/-- Replay of the `drr_empty_resets_deficit` test of src/port.rs
(packet size scaled from 1000 to 10 bytes): one packet in queue 0 and
twenty in queue 1 give 0 followed by ten 1s; refilling queue 0 after
the scan has cleared its deficit yields strict alternation. -/
example :
    (drrSeq 11
      ((mkTestPkt 0 0 10 :: List.replicate 20 (mkTestPkt 1 1 10)).foldl
        Port.enqueue (Port.new [1, 1]))).1
      = [0, 1, 1, 1, 1, 1, 1, 1, 1, 1, 1] ∧
    (drrSeq 20
      ((List.replicate 10 (mkTestPkt 0 0 10)).foldl Port.enqueue
        (drrSeq 11
          ((mkTestPkt 0 0 10 :: List.replicate 20 (mkTestPkt 1 1 10)).foldl
            Port.enqueue (Port.new [1, 1]))).2)).1
      = [0, 1, 0, 1, 0, 1, 0, 1, 0, 1, 0, 1, 0, 1, 0, 1, 0, 1, 0, 1] := by
  decide

/-- Look up a flow by id in the association-list model of the
source's `FxHashMap<FlowId, Flow>`. -/
def lookupFlow : ℕ → List (ℕ × Flow) → Option Flow
  | _, [] => none
  | i, (j, f) :: rest => if j = i then some f else lookupFlow i rest

/-- Remove a flow by id from the association-list model. -/
def removeFlow : ℕ → List (ℕ × Flow) → List (ℕ × Flow)
  | _, [] => []
  | i, (j, f) :: rest => if j = i then rest else (j, f) :: removeFlow i rest

/-- Replace a flow's state in the association-list model (the source
mutates through `get_mut`). -/
def setFlow : ℕ → Flow → List (ℕ × Flow) → List (ℕ × Flow)
  | _, _, [] => []
  | i, f', (j, f) :: rest =>
    if j = i then (j, f') :: rest else (j, f) :: setFlow i f' rest

/-- The per-source flow queue (src/entities/source.rs, struct FlowQ):
an id-to-flow map, a round-robin order and the `rr_next` cursor. -/
structure FlowQ where
  members : List (ℕ × Flow)
  order : List ℕ
  rr_next : ℕ
deriving DecidableEq, Repr

/-- The result of `FlowQ::next_packet` (src/entities/source.rs, enum
FlowQResult). -/
inductive FlowQResult
  | found (pkt : Packet)
  | rateBound (tnext : ℕ)
  | winBound
  | empty
deriving DecidableEq, Repr

/-- The scan loop of `FlowQ::next_packet` (src/entities/source.rs
lines 202-230): visit up to `nr_flows` flows starting at `rr_next`; a
flow that is neither rate- nor window-bound transmits (and is removed
if drained); a rate-bound, non-window-bound flow lowers
`min_viable_tnext`; window-bound flows are skipped.  The fuel is the
loop count `nr_flows - i`.  A flow id missing from the map would make
the source panic on `unwrap`; the model skips it (the source maintains
the order/members consistency invariant). -/
def flowQGo (szMax szHdr now : ℕ) : ℕ → ℕ → Option ℕ → FlowQ → FlowQResult × FlowQ
  | 0, _, mv, q =>
    (match mv with
     | some t => FlowQResult.rateBound t
     | none => FlowQResult.winBound, q)
  | r + 1, i, mv, q =>
    let nr := q.order.length
    let idx := (i + q.rr_next) % nr
    let fid := q.order.getD idx 0
    match lookupFlow fid q.members with
    | none => flowQGo szMax szHdr now r (i + 1) mv q
    | some flow =>
      if flow.is_rate_bound now = false ∧ flow.is_win_bound = false then
        let pf := flow.next_packet szMax szHdr now
        let q' :=
          if pf.2.bytes_left = 0 then
            { q with order := q.order.eraseIdx idx,
                     members := removeFlow fid q.members, rr_next := idx + 1 }
          else
            { q with members := setFlow fid pf.2 q.members, rr_next := idx + 1 }
        (FlowQResult.found pf.1, q')
      else if flow.is_rate_bound now = true ∧ flow.is_win_bound = false then
        flowQGo szMax szHdr now r (i + 1)
          (some (match mv with
                 | none => flow.tnext
                 | some t => min flow.tnext t)) q
      else
        flowQGo szMax szHdr now r (i + 1) mv q

/-- `FlowQ::next_packet` (src/entities/source.rs lines 198-238). -/
def FlowQ.next_packet (szMax szHdr : ℕ) (q : FlowQ) (now : ℕ) : FlowQResult × FlowQ :=
  if q.order.isEmpty then (FlowQResult.empty, q)
  else flowQGo szMax szHdr now q.order.length 0 none q

/-- `FlowQ::add_flow` (src/entities/source.rs lines 240-245): asserts
that the id is not already present (`none` models the assertion
failure aborting the simulation), then appends to both the order and
the map. -/
def FlowQ.add_flow (q : FlowQ) (f : Flow) : Option FlowQ :=
  if (lookupFlow f.id q.members).isSome then none
  else some { q with order := q.order ++ [f.id], members := q.members ++ [(f.id, f)] }

/-- The per-source state (src/entities/source.rs, struct Source).
`tnext` is `none` for the `Time::MAX` idle sentinel; the FCT
record-keeping (`flow_info`, `records`), which no claim touches, is
omitted. -/
structure Source where
  id : ℕ
  delay2btl : ℕ
  link_rate : ℕ
  earliest_tnext : ℕ
  tnext : Option ℕ
  flow_queue : FlowQ
  version : ℕ
deriving DecidableEq, Repr

/-- `a < b` on the `Option ℕ` model of `Time`, where the `Time::MAX`
idle sentinel is mapped to `none` (and every concrete time is below
it). -/
def ltTime (a : ℕ) (b : Option ℕ) : Bool :=
  match b with
  | none => true
  | some t => decide (a < t)

/-- `Source::try_send` (src/entities/source.rs lines 45-72): a version
mismatch returns immediately with no events and no state change;
otherwise dispatch on the flow queue's scan result, scheduling the
packet's arrival at the bottleneck and the source's own next wake-up. -/
def Source.try_send (szMax szHdr : ℕ) (version : ℕ) (s : Source) (now : ℕ) :
    Source × List Ev :=
  if version ≠ s.version then (s, [])
  else
    match s.flow_queue.next_packet szMax szHdr now with
    | (FlowQResult.found pkt, fq) =>
      let bw_delta := length_ns s.link_rate pkt.size
      ({ s with flow_queue := fq, earliest_tnext := now + bw_delta,
                tnext := some (now + bw_delta) },
       [Ev.btlReceive pkt (s.delay2btl + bw_delta),
        Ev.srcTrySend s.id s.version bw_delta])
    | (FlowQResult.rateBound t, fq) =>
      ({ s with flow_queue := fq, tnext := some t },
       [Ev.srcTrySend s.id s.version (t - now)])
    | (FlowQResult.winBound, fq) => ({ s with flow_queue := fq, tnext := none }, [])
    | (FlowQResult.empty, fq) => ({ s with flow_queue := fq, tnext := none }, [])

/-- `Source::rcv_ack` (src/entities/source.rs lines 75-89): deliver
the ack to the flow if it still exists; if the flow is then not
window-bound and would like to wake up earlier than the source's
current `tnext`, bump the version and reschedule. -/
def Source.rcv_ack (szMax : ℕ) (s : Source) (flow_id : ℕ) (a : Ack) (now : ℕ) :
    Source × List Ev :=
  match lookupFlow flow_id s.flow_queue.members with
  | none => (s, [])
  | some flow =>
    let flow' := flow.rcv_ack szMax a
    let s1 := { s with flow_queue :=
                  { s.flow_queue with members := setFlow flow_id flow' s.flow_queue.members } }
    if flow'.is_win_bound = false ∧ ltTime flow'.tnext s1.tnext = true then
      let tn := max s1.earliest_tnext flow'.tnext
      let s2 := { s1 with version := s1.version + 1, tnext := some tn }
      (s2, [Ev.srcTrySend s2.id s2.version (tn - now)])
    else (s1, [])

/-- A flow descriptor (src/flow.rs, struct FlowDesc). -/
structure FlowDesc where
  id : ℕ
  source : ℕ
  size : ℕ
  start : ℕ
  delay2dst : ℕ
deriving DecidableEq, Repr

/-- `Source::flow_arrive` (src/entities/source.rs lines 92-123):
build the flow with the source's link rate as both current and
maximum rate, insert it into the flow queue (aborting, `none`, if the
id is already present), and wake the source up if it is idle in the
window between `earliest_tnext` and `tnext`.  The record-keeping
`flow_info` insertion is omitted. -/
def Source.flow_arrive (szMax szHdr window : ℕ) (gain : ℚ) (ai : ℕ)
    (s : Source) (desc : FlowDesc) (now : ℕ) : Option (Source × List Ev) :=
  let btl2dst := desc.delay2dst - s.delay2btl
  let flow := mkFlow desc.id desc.source desc.size s.link_rate now
    s.delay2btl btl2dst window gain ai
  match s.flow_queue.add_flow flow with
  | none => none
  | some fq =>
    let s1 := { s with flow_queue := fq }
    if s1.earliest_tnext ≤ now ∧ ltTime now s1.tnext = true then
      let s2 := { s1 with version := s1.version + 1 }
      some (s2.try_send szMax szHdr s2.version now)
    else some (s1, [])

/-- A source descriptor (src/entities/source.rs, struct SourceDesc). -/
structure SourceDesc where
  id : ℕ
  delay2btl : ℕ
  link_rate : ℕ
deriving DecidableEq, Repr

/-- The simulation configuration (src/driver.rs, struct Config).  The
f64 gain is an exact rational here. -/
structure Config where
  bandwidth : ℕ
  sources : List SourceDesc
  flows : List FlowDesc
  quanta : List ℕ
  window : ℕ
  dctcp_marking_threshold : ℕ
  dctcp_gain : ℚ
  dctcp_ai : ℕ
  sz_pktmax : ℕ
  sz_pkthdr : ℕ
  timeout : Option ℕ
deriving DecidableEq, Repr

/-- The configuration errors `run` can return (src/driver.rs, enum
Error). -/
inductive DriverError
  | invalidQuanta
deriving DecidableEq, Repr

/-- The error decision of `run` (src/driver.rs lines 51-86): after
sorting the flows and building the sources — neither of which can
fail — the only early return is `Err(InvalidQuanta)` when not every
quantum is positive; every other configuration reaches
`Ok(sim.run())`.  `Bytes` is unsigned, so "non-positive" means zero. -/
def runError (cfg : Config) : Option DriverError :=
  if cfg.quanta.all (fun q => decide (0 < q)) then none
  else some DriverError.invalidQuanta

/-- Modelled from the spec (sections 6 and 7): the set of
configurations the specification's InvalidConfiguration error is
claimed to cover — a non-positive DRR quantum, an empty `quanta`
list, a flow whose `delay2dst` is below its source's `delay2btl`, or
a flow referencing an unknown `source_id`.  This definition follows
the claim's words and is compared against `runError`, which follows
the code. -/
def specMalformed (cfg : Config) : Prop :=
  (∃ q ∈ cfg.quanta, q = 0) ∨ cfg.quanta = [] ∨
  (∃ f ∈ cfg.flows, ∃ s ∈ cfg.sources, s.id = f.source ∧ f.delay2dst < s.delay2btl) ∨
  (∃ f ∈ cfg.flows, ∀ s ∈ cfg.sources, s.id ≠ f.source)

/-- The flow states reachable during a run, together with the
multiset of in-flight payload sizes.  A flow is created by
`flow_arrive`, transmits through `next_packet` when the source finds
it neither drained nor window-bound (the source's asserts), and
receives one ack per serviced packet carrying `pkt.size − sz_pkthdr`
bytes (src/entities/bottleneck.rs line 68), i.e. exactly the packet's
payload; in-flight payloads are acknowledged at most once each.
`link_rate`, `window`, `gain` and `ai` are the per-source
configuration shared by the flow's whole lifetime. -/
inductive FlowReach (szMax szHdr link_rate window : ℕ) (gain : ℚ) (ai : ℕ) :
    Flow → Multiset ℕ → Prop
  | init (id source size now src2btl btl2dst : ℕ) :
    FlowReach szMax szHdr link_rate window gain ai
      (mkFlow id source size link_rate now src2btl btl2dst window gain ai) 0
  | send {f : Flow} {fl : Multiset ℕ} (now : ℕ) :
    FlowReach szMax szHdr link_rate window gain ai f fl →
    0 < f.bytes_left → 0 < f.usable_window →
    FlowReach szMax szHdr link_rate window gain ai
      (f.next_packet szMax szHdr now).2
      (((f.next_packet szMax szHdr now).1.size - szHdr) ::ₘ fl)
  | ack {f : Flow} {fl : Multiset ℕ} (p : ℕ) (m : Bool) :
    FlowReach szMax szHdr link_rate window gain ai f fl →
    p ∈ fl →
    FlowReach szMax szHdr link_rate window gain ai
      (f.rcv_ack szMax { nr_bytes := p, marked := m }) (fl.erase p)

example :
    (Flow.next_packet 1000 48
      (mkFlow 0 0 2000 1000000000 0 1 2 100000 (1/16) 0) 5).2.snd_nxt = 1000 := by
  with_unfolding_all rfl

example :
    ((mkFlow 0 0 2000 10000000000 0 1 2 100000 (1/16) 0).rcv_ack 1000
      { nr_bytes := 1000, marked := true }).rate = 5000000000 := by
  with_unfolding_all rfl

/-- Claim C4: a `Source.TrySend` whose captured version is older than
the source's current version is a no-op — it transmits no packet,
schedules no events and leaves the source state unchanged; in
particular no stale `TrySend` ever transmits a packet
(src/entities/source.rs lines 45-48). -/
theorem try_send_stale_version_noop (szMax szHdr version : ℕ) (s : Source)
    (now : ℕ) (h : version < s.version) :
    Source.try_send szMax szHdr version s now = (s, []) := by
  have hne : version ≠ s.version := Nat.ne_of_lt h
  simp [Source.try_send, hne]

/-- A concrete idle source with version 3 used as the witness input
for the stale-wake-up claim. -/
def srcW : Source :=
  { id := 0, delay2btl := 1000, link_rate := 10000000000,
    earliest_tnext := 0, tnext := none,
    flow_queue := { members := [], order := [], rr_next := 0 }, version := 3 }

theorem try_send_stale_version_noop_witness :
    2 < srcW.version ∧ Source.try_send 1000 48 2 srcW 0 = (srcW, []) :=
  ⟨by decide, try_send_stale_version_noop 1000 48 2 srcW 0 (by decide)⟩

/-- Claim C10: `flow_arrive` for a `FlowId` already present in the
source's flow queue hits the `assert!(!self.members.contains_key(&id))`
in `FlowQ::add_flow` (src/entities/source.rs lines 240-245), aborting
the simulation — modelled as `none` — rather than replacing or
duplicating the existing flow. -/
theorem flow_arrive_duplicate_aborts (szMax szHdr window : ℕ) (gain : ℚ)
    (ai : ℕ) (s : Source) (desc : FlowDesc) (now : ℕ)
    (h : (lookupFlow desc.id s.flow_queue.members).isSome = true) :
    Source.flow_arrive szMax szHdr window gain ai s desc now = none := by
  simp [Source.flow_arrive, FlowQ.add_flow, mkFlow, h]

/-- A source already holding flow id 7, used as the witness input for
the duplicate-arrival claim. -/
def srcDup : Source :=
  { id := 0, delay2btl := 1000, link_rate := 10000000000,
    earliest_tnext := 0, tnext := none,
    flow_queue :=
      { members := [(7, mkFlow 7 0 100 10000000000 0 1000 1000 100000 (1/16) 0)],
        order := [7], rr_next := 0 }, version := 0 }

theorem flow_arrive_duplicate_aborts_witness :
    Source.flow_arrive 1000 48 100000 (1/16) 0 srcDup
      { id := 7, source := 0, size := 500, start := 0, delay2dst := 2000 } 0 = none :=
  flow_arrive_duplicate_aborts 1000 48 100000 (1/16) 0 srcDup
    { id := 7, source := 0, size := 500, start := 0, delay2dst := 2000 } 0 (by decide)

/-- Claim C2 (amended): `run` returns an error exactly when some DRR
quantum is zero — `InvalidQuanta` is the only configuration check the
code performs (src/driver.rs lines 66-68); the empty `quanta` list,
flows with `delay2dst < delay2btl` and unknown `source_id`s sail
through the check. -/
theorem run_error_iff_zero_quantum (cfg : Config) :
    (runError cfg = some DriverError.invalidQuanta ↔ ∃ q ∈ cfg.quanta, q = 0) ∧
    (runError cfg = none ↔ ∀ q ∈ cfg.quanta, 0 < q) := by
  have hiff : (cfg.quanta.all (fun q => decide (0 < q)) = true) ↔
      ∀ q ∈ cfg.quanta, 0 < q := by
    simp [List.all_eq_true]
  constructor
  · constructor
    · intro hc
      unfold runError at hc
      split_ifs at hc with hall
      rw [hiff] at hall
      push_neg at hall
      obtain ⟨q, hq, hq0⟩ := hall
      exact ⟨q, hq, by omega⟩
    · rintro ⟨q, hq, hq0⟩
      unfold runError
      split_ifs with hall
      · have := hiff.1 hall q hq
        omega
      · rfl
  · constructor
    · intro hc
      unfold runError at hc
      split_ifs at hc with hall
      exact hiff.1 hall
    · intro hall
      unfold runError
      split_ifs with h2
      · rfl
      · exact absurd (hiff.2 hall) h2

/-- A configuration with an empty `quanta` list (and no sources or
flows): the specification calls it malformed, the code accepts it. -/
def cfgEmptyQuanta : Config :=
  { bandwidth := 10000000000, sources := [], flows := [], quanta := [],
    window := 100000, dctcp_marking_threshold := 100000, dctcp_gain := 1/16,
    dctcp_ai := 0, sz_pktmax := 1000, sz_pkthdr := 48, timeout := none }

/-- Claim C2 (counterexample): the empty-`quanta` configuration is
malformed in the claim's sense, yet `run` does not return an error
for it, refuting the claimed equivalence. -/
theorem run_accepts_empty_quanta :
    runError cfgEmptyQuanta = none ∧ specMalformed cfgEmptyQuanta :=
  ⟨rfl, Or.inr (Or.inl rfl)⟩

/-- Claim C7: under the source's preconditions (`bytes_left > 0`,
`usable_window > 0`, and the `snd_nxt ≤ size` run invariant),
`next_packet` emits a packet whose payload is
`min(bytes_left, sz_pktmax, usable_window)` and whose total size adds
`sz_pkthdr`; it advances `snd_nxt` by the payload, sets `tnext` to
`now + length(pkt_size, rate)`, and sets `is_last` exactly when the
new `snd_nxt` equals `size` (src/flow.rs lines 83-105). -/
theorem next_packet_spec (szMax szHdr now : ℕ) (f : Flow)
    (h1 : 0 < f.bytes_left) (h2 : 0 < f.usable_window) (h3 : f.snd_nxt ≤ f.size) :
    (f.next_packet szMax szHdr now).1.size
      = min (min f.bytes_left szMax) f.usable_window + szHdr ∧
    (f.next_packet szMax szHdr now).2.snd_nxt
      = f.snd_nxt + min (min f.bytes_left szMax) f.usable_window ∧
    (f.next_packet szMax szHdr now).2.tnext
      = now + length_ns f.rate (min (min f.bytes_left szMax) f.usable_window + szHdr) ∧
    ((f.next_packet szMax szHdr now).1.is_last = true
      ↔ (f.next_packet szMax szHdr now).2.snd_nxt = f.size) := by
  refine ⟨rfl, rfl, rfl, ?_⟩
  have hp : min (min f.bytes_left szMax) f.usable_window ≤ f.bytes_left :=
    le_trans (min_le_left _ _) (min_le_left _ _)
  simp only [Flow.next_packet, Flow.bytes_left, decide_eq_true_eq] at hp ⊢
  omega

/-- A flow that has just arrived, used as the witness input for the
next-packet claim: 2500 bytes to send at 10 Gbps with a 100 kB
window. -/
def flowW7 : Flow := mkFlow 1 0 2500 10000000000 0 1000 1000 100000 (1/16) 0

theorem next_packet_spec_witness :
    (flowW7.next_packet 1000 48 5).1.size
      = min (min flowW7.bytes_left 1000) flowW7.usable_window + 48 ∧
    (flowW7.next_packet 1000 48 5).2.snd_nxt
      = flowW7.snd_nxt + min (min flowW7.bytes_left 1000) flowW7.usable_window ∧
    (flowW7.next_packet 1000 48 5).2.tnext
      = 5 + length_ns flowW7.rate (min (min flowW7.bytes_left 1000) flowW7.usable_window + 48) ∧
    ((flowW7.next_packet 1000 48 5).1.is_last = true
      ↔ (flowW7.next_packet 1000 48 5).2.snd_nxt = flowW7.size) :=
  next_packet_spec 1000 48 5 flowW7 (by decide)
    (by with_unfolding_all decide) (by decide)

/-- `rate_update` never touches the batch counter. -/
theorem rate_update_batch_size (f : Flow) (m nb : Bool) :
    (f.rate_update m nb).batch_size = f.batch_size := by
  unfold Flow.rate_update
  split_ifs <;> rfl

theorem rnd_natCast (n : ℕ) : rnd (n : ℚ) = n := by
  unfold rnd
  have h : (⌊(n : ℚ) + 1 / 2⌋ : ℤ) = n := by
    rw [Int.floor_eq_iff]
    push_cast
    constructor <;> linarith
  rw [h]
  exact Int.toNat_natCast n

theorem rnd_mono {a b : ℚ} (h : a ≤ b) : rnd a ≤ rnd b :=
  Int.toNat_le_toNat (Int.floor_le_floor (by linarith))

theorem rnd_le_nat {q : ℚ} {n : ℕ} (h : q ≤ (n : ℚ)) : rnd q ≤ n := by
  calc rnd q ≤ rnd (n : ℚ) := rnd_mono h
    _ = n := rnd_natCast n

theorem clampQ_bounds (x : ℚ) {lo hi : ℚ} (h : lo ≤ hi) :
    lo ≤ clampQ x lo hi ∧ clampQ x lo hi ≤ hi := by
  unfold clampQ
  exact ⟨le_max_left _ _, max_le h (min_le_right _ _)⟩

/-- `batch_update` leaves everything except `alpha`, `marked_count`,
`batch_size` and `last_update_seq` untouched. -/
theorem batch_update_proj (szMax : ℕ) (f : Flow) :
    (f.batch_update szMax).1.snd_una = f.snd_una ∧
    (f.batch_update szMax).1.snd_nxt = f.snd_nxt ∧
    (f.batch_update szMax).1.size = f.size ∧
    (f.batch_update szMax).1.rate = f.rate ∧
    (f.batch_update szMax).1.min_rate = f.min_rate ∧
    (f.batch_update szMax).1.max_rate = f.max_rate ∧
    (f.batch_update szMax).1.gain = f.gain ∧
    (f.batch_update szMax).1.additive_inc = f.additive_inc := by
  unfold Flow.batch_update
  split_ifs <;> simp

/-- The batch update keeps `alpha` inside `[0, 1]` whenever the gain
lies in `[0, 1]`: the new value is a convex combination of the old
alpha and the clamped marked fraction. -/
theorem batch_update_alpha (szMax : ℕ) (f : Flow) (hg0 : 0 ≤ f.gain)
    (hg1 : f.gain ≤ 1) (h0 : 0 ≤ f.alpha) (h1 : f.alpha ≤ 1) :
    0 ≤ (f.batch_update szMax).1.alpha ∧ (f.batch_update szMax).1.alpha ≤ 1 := by
  obtain ⟨hc0, hc1⟩ :=
    clampQ_bounds ((f.marked_count : ℚ) / (f.batch_size : ℚ)) (show (0:ℚ) ≤ 1 by norm_num)
  unfold Flow.batch_update
  split_ifs
  · exact ⟨h0, h1⟩
  · constructor
    · simp only
      have t1 : (0:ℚ) ≤ (1 - f.gain) * f.alpha := mul_nonneg (by linarith) h0
      have t2 : (0:ℚ) ≤ f.gain * clampQ ((f.marked_count : ℚ) / (f.batch_size : ℚ)) 0 1 :=
        mul_nonneg hg0 hc0
      linarith
    · simp only
      have t1 : (1 - f.gain) * f.alpha ≤ 1 - f.gain :=
        mul_le_of_le_one_right (by linarith) h1
      have t2 : f.gain * clampQ ((f.marked_count : ℚ) / (f.batch_size : ℚ)) 0 1 ≤ f.gain :=
        mul_le_of_le_one_right hg0 hc1
      linarith
  · exact ⟨h0, h1⟩

/-- `rate_update` leaves everything except `rate`, `ca_state` and
`high_seq` untouched. -/
theorem rate_update_proj (f : Flow) (m nb : Bool) :
    (f.rate_update m nb).snd_una = f.snd_una ∧
    (f.rate_update m nb).snd_nxt = f.snd_nxt ∧
    (f.rate_update m nb).size = f.size ∧
    (f.rate_update m nb).min_rate = f.min_rate ∧
    (f.rate_update m nb).max_rate = f.max_rate ∧
    (f.rate_update m nb).gain = f.gain ∧
    (f.rate_update m nb).alpha = f.alpha := by
  unfold Flow.rate_update
  split_ifs <;> simp

/-- The rate update keeps `rate` inside `[min_rate, max_rate]` as long
as `min_rate ≤ max_rate` and `alpha` is non-negative: the
multiplicative decrease never increases the rate and is clamped below,
the additive increase is clamped above. -/
theorem rate_update_rate_bounds (f : Flow) (m nb : Bool)
    (hmm : f.min_rate ≤ f.max_rate) (hr1 : f.min_rate ≤ f.rate)
    (hr2 : f.rate ≤ f.max_rate) (hα0 : 0 ≤ f.alpha) :
    f.min_rate ≤ (f.rate_update m nb).rate ∧ (f.rate_update m nb).rate ≤ f.max_rate := by
  have hred : rnd ((f.rate : ℚ) * (1 - f.alpha / 2)) ≤ f.rate := by
    apply rnd_le_nat
    apply mul_le_of_le_one_right (by positivity)
    linarith
  unfold Flow.rate_update
  split_ifs <;> (try dsimp only) <;> omega

/-- `ack_register` advances `snd_una` (and possibly `marked_count`)
and leaves every other field untouched. -/
theorem ack_register_proj (f : Flow) (a : Ack) :
    (f.ack_register a).snd_una = f.snd_una + a.nr_bytes ∧
    (f.ack_register a).snd_nxt = f.snd_nxt ∧
    (f.ack_register a).size = f.size ∧
    (f.ack_register a).rate = f.rate ∧
    (f.ack_register a).min_rate = f.min_rate ∧
    (f.ack_register a).max_rate = f.max_rate ∧
    (f.ack_register a).gain = f.gain ∧
    (f.ack_register a).alpha = f.alpha ∧
    (f.ack_register a).last_update_seq = f.last_update_seq ∧
    (f.ack_register a).ca_state = f.ca_state := by
  unfold Flow.ack_register
  split_ifs <;> exact ⟨rfl, rfl, rfl, rfl, rfl, rfl, rfl, rfl, rfl, rfl⟩

/-- `ca_open_check` can only change `ca_state`. -/
theorem ca_open_check_proj (f : Flow) :
    (f.ca_open_check).snd_una = f.snd_una ∧
    (f.ca_open_check).snd_nxt = f.snd_nxt ∧
    (f.ca_open_check).size = f.size ∧
    (f.ca_open_check).rate = f.rate ∧
    (f.ca_open_check).min_rate = f.min_rate ∧
    (f.ca_open_check).max_rate = f.max_rate ∧
    (f.ca_open_check).gain = f.gain ∧
    (f.ca_open_check).alpha = f.alpha ∧
    (f.ca_open_check).batch_size = f.batch_size := by
  unfold Flow.ca_open_check
  split_ifs <;> exact ⟨rfl, rfl, rfl, rfl, rfl, rfl, rfl, rfl, rfl⟩

/-- `rcv_ack` advances `snd_una` by the acked bytes and leaves
`snd_nxt`, `size` and the rate-configuration fields untouched. -/
theorem rcv_ack_proj (szMax : ℕ) (f : Flow) (a : Ack) :
    (f.rcv_ack szMax a).snd_una = f.snd_una + a.nr_bytes ∧
    (f.rcv_ack szMax a).snd_nxt = f.snd_nxt ∧
    (f.rcv_ack szMax a).size = f.size ∧
    (f.rcv_ack szMax a).min_rate = f.min_rate ∧
    (f.rcv_ack szMax a).max_rate = f.max_rate ∧
    (f.rcv_ack szMax a).gain = f.gain := by
  obtain ⟨ha1, ha2, ha3, _, ha5, ha6, ha7, _, _, _⟩ := ack_register_proj f a
  obtain ⟨hb1, hb2, hb3, _, hb5, hb6, hb7, _⟩ :=
    batch_update_proj szMax (f.ack_register a)
  obtain ⟨hc1, hc2, hc3, _, hc5, hc6, hc7, _, _⟩ :=
    ca_open_check_proj ((f.ack_register a).batch_update szMax).1
  obtain ⟨hu1, hu2, hu3, hu4, hu5, hu6, _⟩ :=
    rate_update_proj ((f.ack_register a).batch_update szMax).1.ca_open_check
      a.marked ((f.ack_register a).batch_update szMax).2
  unfold Flow.rcv_ack
  refine ⟨?_, ?_, ?_, ?_, ?_, ?_⟩
  · rw [hu1, hc1, hb1, ha1]
  · rw [hu2, hc2, hb2, ha2]
  · rw [hu3, hc3, hb3, ha3]
  · rw [hu4, hc5, hb5, ha5]
  · rw [hu5, hc6, hb6, ha6]
  · rw [hu6, hc7, hb7, ha7]

/-- `rcv_ack` keeps `alpha` in `[0, 1]` and `rate` in
`[min_rate, max_rate]`, given a gain in `[0, 1]` and
`min_rate ≤ max_rate`. -/
theorem rcv_ack_bounds (szMax : ℕ) (f : Flow) (a : Ack)
    (hg0 : 0 ≤ f.gain) (hg1 : f.gain ≤ 1) (h0 : 0 ≤ f.alpha) (h1 : f.alpha ≤ 1)
    (hmm : f.min_rate ≤ f.max_rate) (hr1 : f.min_rate ≤ f.rate)
    (hr2 : f.rate ≤ f.max_rate) :
    (0 ≤ (f.rcv_ack szMax a).alpha ∧ (f.rcv_ack szMax a).alpha ≤ 1) ∧
    ((f.rcv_ack szMax a).min_rate ≤ (f.rcv_ack szMax a).rate ∧
     (f.rcv_ack szMax a).rate ≤ (f.rcv_ack szMax a).max_rate) := by
  obtain ⟨_, _, _, ha4, ha5, ha6, ha7, ha8, _, _⟩ := ack_register_proj f a
  obtain ⟨hbα0, hbα1⟩ := batch_update_alpha szMax (f.ack_register a)
    (ha7 ▸ hg0) (ha7 ▸ hg1) (ha8 ▸ h0) (ha8 ▸ h1)
  obtain ⟨_, _, _, hb4, hb5, hb6, hb7, _⟩ :=
    batch_update_proj szMax (f.ack_register a)
  obtain ⟨_, _, _, hc4, hc5, hc6, hc7, hc8, _⟩ :=
    ca_open_check_proj ((f.ack_register a).batch_update szMax).1
  obtain ⟨_, _, _, hu4, hu5, _, hu7⟩ :=
    rate_update_proj ((f.ack_register a).batch_update szMax).1.ca_open_check
      a.marked ((f.ack_register a).batch_update szMax).2
  have hrb := rate_update_rate_bounds
    ((f.ack_register a).batch_update szMax).1.ca_open_check
    a.marked ((f.ack_register a).batch_update szMax).2
    (by rw [hc5, hc6, hb5, hb6, ha5, ha6]; exact hmm)
    (by rw [hc5, hc4, hb5, hb4, ha5, ha4]; exact hr1)
    (by rw [hc6, hc4, hb6, hb4, ha6, ha4]; exact hr2)
    (by rw [hc8]; exact hbα0)
  unfold Flow.rcv_ack
  constructor
  · rw [hu7, hc8]
    exact ⟨hbα0, hbα1⟩
  · constructor
    · rw [hu4]
      exact hrb.1
    · rw [hu5]
      exact hrb.2

/-- The batch update writes the new `batch_size` according to the
first-batch rule whenever the batch boundary has been crossed. -/
theorem batch_update_batch_size (szMax : ℕ) (f : Flow)
    (hlt : f.last_update_seq < f.snd_una) :
    (f.batch_update szMax).1.batch_size =
      if f.last_update_seq = 0 then min_count_in f.snd_nxt szMax
      else min_count_in (f.snd_nxt - f.snd_una) szMax := by
  unfold Flow.batch_update
  rw [if_pos hlt]
  split_ifs <;> rfl

/-- Claim C8 (amended): when an ack completes a batch
(`snd_una + bytes_acked > last_update_seq`), `rcv_ack` sets
`batch_size` to `min_count_in(covered, sz_pktmax)` where `covered` is
`snd_nxt` on the first batch and `snd_nxt − snd_una` (with the updated
`snd_una`) afterwards; for positive `covered` this is
`covered / sz_pktmax + 1`, which agrees with the ceiling
`⌈covered / sz_pktmax⌉` exactly when `sz_pktmax` does not divide
`covered`, and exceeds it by one on exact multiples
(src/flow.rs lines 114-127, src/packet.rs lines 37-43). -/
theorem rcv_ack_batch_size (szMax : ℕ) (f : Flow) (a : Ack)
    (hb : f.last_update_seq < f.snd_una + a.nr_bytes) :
    ((f.rcv_ack szMax a).batch_size =
      if f.last_update_seq = 0 then min_count_in f.snd_nxt szMax
      else min_count_in (f.snd_nxt - (f.snd_una + a.nr_bytes)) szMax) ∧
    (∀ b m : ℕ, 0 < b → min_count_in b m = b / m + 1) ∧
    (∀ b m : ℕ, 0 < b → 0 < m → ¬ m ∣ b → min_count_in b m = (b + m - 1) / m) ∧
    (∀ b m : ℕ, 0 < b → 0 < m → m ∣ b → min_count_in b m = (b + m - 1) / m + 1) := by
  refine ⟨?_, ?_, ?_, ?_⟩
  · obtain ⟨ha1, ha2, _, _, _, _, _, _, ha9, _⟩ := ack_register_proj f a
    have hlt : (f.ack_register a).last_update_seq < (f.ack_register a).snd_una := by
      rw [ha9, ha1]; exact hb
    have hbz := batch_update_batch_size szMax (f.ack_register a) hlt
    unfold Flow.rcv_ack
    rw [rate_update_batch_size,
      (ca_open_check_proj ((f.ack_register a).batch_update szMax).1).2.2.2.2.2.2.2.2,
      hbz, ha9, ha2, ha1]
  · intro b m hb0
    unfold min_count_in
    rw [if_neg (by omega)]
  · intro b m hb0 hm hnd
    have hr : b % m ≠ 0 := fun hc => hnd (Nat.dvd_iff_mod_eq_zero.mpr hc)
    have hdm : m * (b / m) + b % m = b := Nat.div_add_mod b m
    have hrm : b % m < m := Nat.mod_lt _ hm
    have hmul : m * (b / m + 1) = m * (b / m) + m := by ring
    have he : b + m - 1 = m * (b / m + 1) + (b % m - 1) := by omega
    unfold min_count_in
    rw [if_neg (by omega), he, Nat.mul_add_div hm,
      Nat.div_eq_of_lt (show b % m - 1 < m by omega)]
  · intro b m hb0 hm hd
    obtain ⟨k, rfl⟩ := hd
    have hk : 0 < k := by
      rcases Nat.eq_zero_or_pos k with h0 | h0
      · subst h0; simp at hb0
      · exact h0
    have he : m * k + m - 1 = m * k + (m - 1) := by omega
    unfold min_count_in
    rw [if_neg (by omega), he, Nat.mul_add_div hm,
      Nat.div_eq_of_lt (show m - 1 < m by omega),
      Nat.mul_div_cancel_left _ hm]

/-- A flow whose whole 1000-byte window-worth has just been sent and
acknowledged: `snd_nxt` is an exact multiple of `sz_pktmax`, the case
where the claimed ceiling disagrees with the code. -/
def flowC8 : Flow :=
  ((mkFlow 1 0 2000 1000000000 0 1000 1000 100000 (1/16) 0).next_packet 1000 48 0).2

theorem rcv_ack_batch_size_witness :
    ((flowC8.rcv_ack 1000 { nr_bytes := 1000, marked := false }).batch_size =
      if flowC8.last_update_seq = 0 then min_count_in flowC8.snd_nxt 1000
      else min_count_in (flowC8.snd_nxt - (flowC8.snd_una + 1000)) 1000) ∧
    (∀ b m : ℕ, 0 < b → min_count_in b m = b / m + 1) ∧
    (∀ b m : ℕ, 0 < b → 0 < m → ¬ m ∣ b → min_count_in b m = (b + m - 1) / m) ∧
    (∀ b m : ℕ, 0 < b → 0 < m → m ∣ b → min_count_in b m = (b + m - 1) / m + 1) :=
  rcv_ack_batch_size 1000 flowC8 { nr_bytes := 1000, marked := false }
    (by with_unfolding_all decide)

/-- Claim C8 (counterexample): on the first batch with
`snd_nxt = 1000` and `sz_pktmax = 1000`, the code sets
`batch_size = 2`, while the claimed ceiling `⌈1000 / 1000⌉` is 1. -/
theorem batch_size_exceeds_ceiling :
    flowC8.snd_nxt = 1000 ∧ flowC8.last_update_seq = 0 ∧
    ((flowC8.rcv_ack 1000 { nr_bytes := 1000, marked := false }).batch_size = 2) ∧
    (1000 + 1000 - 1) / 1000 = 1 := by
  refine ⟨by with_unfolding_all rfl, rfl, ?_, by decide⟩
  with_unfolding_all rfl

/-- Claim C9: every flow built by `flow_arrive` starts with
`alpha = 1.0` (src/flow.rs lines 40-41), and a marked ack delivered
in the Open state while `alpha` is still 1 — and which does not
complete a batch, so that neither an alpha update nor the additive
increase runs in the same call — multiplies the rate by exactly
`1 − 1/2`, clamped below by `min_rate`
(src/flow.rs lines 129-144). -/
theorem alpha_starts_at_one_first_cut_halves (szMax : ℕ) (f : Flow) (a : Ack)
    (hα : f.alpha = 1) (hca : f.ca_state = CaState.zero) (hm : a.marked = true)
    (hb : f.snd_una + a.nr_bytes ≤ f.last_update_seq) :
    (∀ id source size link_rate now src2btl btl2dst window ai,
      (mkFlow id source size link_rate now src2btl btl2dst window f.gain ai).alpha = 1) ∧
    (f.rcv_ack szMax a).rate = max f.min_rate (rnd ((f.rate : ℚ) * (1 - 1/2))) := by
  refine ⟨fun _ _ _ _ _ _ _ _ _ => rfl, ?_⟩
  obtain ⟨ha1, _, _, ha4, ha5, _, _, ha8, ha9, ha10⟩ := ack_register_proj f a
  have hnb : ¬ ((f.ack_register a).last_update_seq < (f.ack_register a).snd_una) := by
    rw [ha9, ha1]; omega
  have hbu : (f.ack_register a).batch_update szMax = (f.ack_register a, false) := by
    unfold Flow.batch_update
    rw [if_neg hnb]
  have hco : (f.ack_register a).ca_open_check = f.ack_register a := by
    unfold Flow.ca_open_check
    rw [if_neg]
    rw [ha10, hca]
    simp
  unfold Flow.rcv_ack
  rw [hbu]
  dsimp only
  rw [hco]
  unfold Flow.rate_update
  rw [ha10, hca, hm]
  simp only [if_pos rfl, Bool.false_eq_true, if_false, if_true]
  rw [ha4, ha5, ha8, hα]

/-- A flow one RTT in (its first batch closed without an alpha
update), with 2000 unacknowledged bytes, used as the witness input
for the alpha-initialisation claim. -/
def flowC9 : Flow :=
  { mkFlow 1 0 10000 10000000000 0 1000 1000 100000 (1/16) 0 with
      snd_nxt := 3000, snd_una := 1000, last_update_seq := 2000 }

theorem alpha_starts_at_one_first_cut_halves_witness :
    ((∀ id source size link_rate now src2btl btl2dst window ai,
      (mkFlow id source size link_rate now src2btl btl2dst window flowC9.gain ai).alpha = 1) ∧
    (flowC9.rcv_ack 1000 { nr_bytes := 500, marked := true }).rate
      = max flowC9.min_rate (rnd ((flowC9.rate : ℚ) * (1 - 1/2)))) :=
  alpha_starts_at_one_first_cut_halves 1000 flowC9
    { nr_bytes := 500, marked := true } rfl rfl rfl (by decide)

/-- The states reachable by one flow during a run satisfy the claimed
run invariant, strengthened with the in-flight accounting
`snd_una + Σ inflight = snd_nxt` and the constancy of the
configuration fields. -/
theorem flowReach_invariant (szMax szHdr link_rate window : ℕ) (gain : ℚ) (ai : ℕ)
    (hg0 : 0 ≤ gain) (hg1 : gain ≤ 1) (hlr : 1000000000 ≤ link_rate)
    {f : Flow} {fl : Multiset ℕ}
    (h : FlowReach szMax szHdr link_rate window gain ai f fl) :
    f.snd_una + fl.sum = f.snd_nxt ∧ f.snd_nxt ≤ f.size ∧
    f.min_rate = 1000000000 ∧ f.max_rate = link_rate ∧ f.gain = gain ∧
    f.min_rate ≤ f.rate ∧ f.rate ≤ f.max_rate ∧
    0 ≤ f.alpha ∧ f.alpha ≤ 1 := by
  induction h with
  | init id source size now src2btl btl2dst =>
    exact ⟨by simp [mkFlow], by simp [mkFlow], rfl, rfl, rfl, hlr, le_rfl,
      by norm_num [mkFlow], by norm_num [mkFlow]⟩
  | send now hr hb hw ih =>
    obtain ⟨ih1, ih2, ih3, ih4, ih5, ih6, ih7, ih8, ih9⟩ := ih
    rename_i f' fl'
    have hpay : min (min f'.bytes_left szMax) f'.usable_window ≤ f'.bytes_left :=
      le_trans (min_le_left _ _) (min_le_left _ _)
    refine ⟨?_, ?_, ih3, ih4, ih5, ih6, ih7, ih8, ih9⟩
    · simp only [Flow.next_packet, Multiset.sum_cons, Nat.add_sub_cancel]
      omega
    · simp only [Flow.next_packet, Flow.bytes_left] at hpay ⊢
      omega
  | ack p m hr hp ih =>
    obtain ⟨ih1, ih2, ih3, ih4, ih5, ih6, ih7, ih8, ih9⟩ := ih
    rename_i f' fl'
    obtain ⟨hp1, hp2, hp3, hp4, hp5, hp6⟩ :=
      rcv_ack_proj szMax f' { nr_bytes := p, marked := m }
    obtain ⟨⟨hA0, hA1⟩, hR1, hR2⟩ :=
      rcv_ack_bounds szMax f' { nr_bytes := p, marked := m }
        (ih5 ▸ hg0) (ih5 ▸ hg1) ih8 ih9 (le_trans ih6 ih7) ih6 ih7
    have hsum : p + (fl'.erase p).sum = fl'.sum := by
      conv_rhs => rw [← Multiset.cons_erase hp]
      rw [Multiset.sum_cons]
    refine ⟨?_, ?_, ?_, ?_, ?_, ?_, ?_, hA0, hA1⟩
    · rw [hp1, hp2]
      have hnr : (Ack.mk p m).nr_bytes = p := rfl
      rw [hnr]
      omega
    · rw [hp2, hp3]; exact ih2
    · rw [hp4]; exact ih3
    · rw [hp5]; exact ih4
    · rw [hp6]; exact ih5
    · exact hR1
    · exact hR2

/-- Claim C3 (amended): in every reachable flow state of a run whose
DCTCP gain lies in `[0, 1]` — the configuration range the spec
prescribes — and whose source link rate is at least the hard-coded
`min_rate` of 1 Gbps, the flow satisfies
`0 ≤ snd_una ≤ snd_nxt ≤ size`, `min_rate ≤ rate ≤ max_rate` and
`0 ≤ alpha ≤ 1` (exact-rational model of the f64 fields).  Without
the link-rate proviso the rate bound fails, see the counterexample. -/
theorem flow_state_invariants (szMax szHdr link_rate window : ℕ) (gain : ℚ) (ai : ℕ)
    (hg0 : 0 ≤ gain) (hg1 : gain ≤ 1) (hlr : 1000000000 ≤ link_rate)
    {f : Flow} {fl : Multiset ℕ}
    (h : FlowReach szMax szHdr link_rate window gain ai f fl) :
    f.snd_una ≤ f.snd_nxt ∧ f.snd_nxt ≤ f.size ∧
    f.min_rate ≤ f.rate ∧ f.rate ≤ f.max_rate ∧
    0 ≤ f.alpha ∧ f.alpha ≤ 1 := by
  obtain ⟨h1, h2, _, _, _, h6, h7, h8, h9⟩ :=
    flowReach_invariant szMax szHdr link_rate window gain ai hg0 hg1 hlr h
  exact ⟨by omega, h2, h6, h7, h8, h9⟩

theorem flow_state_invariants_witness :
    (mkFlow 3 0 5000 10000000000 7 1000 1000 100000 1 0).snd_una
      ≤ (mkFlow 3 0 5000 10000000000 7 1000 1000 100000 1 0).snd_nxt ∧
    (mkFlow 3 0 5000 10000000000 7 1000 1000 100000 1 0).snd_nxt
      ≤ (mkFlow 3 0 5000 10000000000 7 1000 1000 100000 1 0).size ∧
    (mkFlow 3 0 5000 10000000000 7 1000 1000 100000 1 0).min_rate
      ≤ (mkFlow 3 0 5000 10000000000 7 1000 1000 100000 1 0).rate ∧
    (mkFlow 3 0 5000 10000000000 7 1000 1000 100000 1 0).rate
      ≤ (mkFlow 3 0 5000 10000000000 7 1000 1000 100000 1 0).max_rate ∧
    0 ≤ (mkFlow 3 0 5000 10000000000 7 1000 1000 100000 1 0).alpha ∧
    (mkFlow 3 0 5000 10000000000 7 1000 1000 100000 1 0).alpha ≤ 1 :=
  flow_state_invariants 1000 48 10000000000 100000 1 0 zero_le_one le_rfl
    (by decide) (FlowReach.init 3 0 5000 7 1000 1000)

/-- Claim C3 (counterexample): with a source link rate of 1000 bps —
nothing in the configuration forbids a link slower than the hard-coded
1 Gbps `min_rate` — the state of a freshly arrived flow is reachable
yet violates `min_rate ≤ rate`: its rate is the link rate, 1000,
while `min_rate` is 1000000000. -/
theorem flow_rate_below_min_rate_reachable :
    FlowReach 1000 48 1000 100000 (1/16) 0
      (mkFlow 0 0 5000 1000 7 1000 1000 100000 (1/16) 0) 0 ∧
    (mkFlow 0 0 5000 1000 7 1000 1000 100000 (1/16) 0).rate
      < (mkFlow 0 0 5000 1000 7 1000 1000 100000 (1/16) 0).min_rate :=
  ⟨FlowReach.init 0 0 5000 7 1000 1000, by decide⟩

theorem getD_set_self {α : Type} {l : List α} {i : ℕ} (a d : α) (h : i < l.length) :
    (l.set i a).getD i d = a := by
  rw [List.getD_eq_getElem?_getD, List.getElem?_set_self (by simpa using h)]
  rfl

theorem getD_set_ne {α : Type} {l : List α} {i j : ℕ} (a d : α) (h : i ≠ j) :
    (l.set i a).getD j d = l.getD j d := by
  rw [List.getD_eq_getElem?_getD, List.getElem?_set_ne h, ← List.getD_eq_getElem?_getD]

theorem getD_mem {α : Type} {l : List α} {i : ℕ} (d : α) (h : i < l.length) :
    l.getD i d ∈ l := by
  rw [List.getD_eq_getElem?_getD, List.getElem?_eq_getElem h]
  exact List.getElem_mem h

theorem getD_default {α : Type} {l : List α} {i : ℕ} (d : α) (h : l.length ≤ i) :
    l.getD i d = d := by
  rw [List.getD_eq_getElem?_getD, List.getElem?_eq_none (by simpa using h)]
  rfl

/-- The number of counter increments after which the rotating scan at
`counter = c` next lands on index `i` (0 when it is already there). -/
def distC (n c i : ℕ) : ℕ := (i + n - c % n) % n

theorem distC_lt (n c i : ℕ) (hn : 0 < n) : distC n c i < n := Nat.mod_lt _ hn

theorem distC_zero (n c i : ℕ) (h : c % n = i) : distC n c i = 0 := by
  unfold distC
  rw [h]
  have e : i + n - i = n := by omega
  rw [e, Nat.mod_self]

theorem distC_succ_self (n c i : ℕ) (hi : i < n) (h : c % n = i) :
    distC n (c + 1) i = n - 1 := by
  unfold distC
  have h1 : (c + 1) % n = (i + 1) % n := by rw [← Nat.mod_add_mod, h]
  rw [h1]
  by_cases h2 : i + 1 = n
  · rw [h2, Nat.mod_self, Nat.sub_zero, Nat.add_mod_right, Nat.mod_eq_of_lt hi]
    omega
  · rw [Nat.mod_eq_of_lt (show i + 1 < n by omega)]
    have e : i + n - (i + 1) = n - 1 := by omega
    rw [e]
    exact Nat.mod_eq_of_lt (by omega)

theorem distC_succ_ne (n c i : ℕ) (hi : i < n) (h : c % n ≠ i) :
    distC n (c + 1) i + 1 = distC n c i := by
  unfold distC
  have hn : 0 < n := by omega
  have hj : c % n < n := Nat.mod_lt _ hn
  have h1 : (c + 1) % n = (c % n + 1) % n := by rw [Nat.mod_add_mod]
  rw [h1]
  by_cases h2 : c % n + 1 = n
  · rw [h2, Nat.mod_self, Nat.sub_zero]
    have e1 : (i + n) % n = i := by rw [Nat.add_mod_right]; exact Nat.mod_eq_of_lt hi
    have e2 : i + n - c % n = i + 1 := by omega
    rw [e1, e2, Nat.mod_eq_of_lt (by omega)]
  · rw [Nat.mod_eq_of_lt (show c % n + 1 < n by omega)]
    by_cases h4 : c % n < i
    · have e1 : i + n - c % n = (i - c % n) + n := by omega
      have e2 : i + n - (c % n + 1) = (i - c % n - 1) + n := by omega
      rw [e1, e2, Nat.add_mod_right, Nat.add_mod_right,
        Nat.mod_eq_of_lt (show i - c % n - 1 < n by omega),
        Nat.mod_eq_of_lt (show i - c % n < n by omega)]
      omega
    · have h5 : i < c % n := by omega
      rw [Nat.mod_eq_of_lt (show i + n - (c % n + 1) < n by omega),
        Nat.mod_eq_of_lt (show i + n - c % n < n by omega)]
      omega

theorem distC_add (n c i : ℕ) (hi : i < n) : (c + distC n c i) % n = i := by
  unfold distC
  have hn : 0 < n := by omega
  have hj : c % n < n := Nat.mod_lt _ hn
  calc (c + (i + n - c % n) % n) % n
      = (c % n + (i + n - c % n) % n) % n := by rw [Nat.mod_add_mod]
    _ = (c % n + (i + n - c % n)) % n := by rw [Nat.add_mod_mod]
    _ = (i + n) % n := by congr 1; omega
    _ = i := by rw [Nat.add_mod_right]; exact Nat.mod_eq_of_lt hi

/-- The termination measure of the second DRR loop with respect to a
designated non-empty sub-queue `i`: missing deficit, scaled by the
queue count, plus the distance of the rotating counter from `i`, plus
a penalty when `should_bump` is off. -/
def muDrr (s : Port) (i : ℕ) : ℕ :=
  (costAt s i - defAt s i) * s.queues.length + distC s.queues.length s.counter i +
    (if s.should_bump then 0 else s.queues.length)

theorem bumpAt_queues (s : Port) (idx : ℕ) :
    (bumpAt s idx).queues = s.queues ∧ (bumpAt s idx).quanta = s.quanta ∧
    (bumpAt s idx).counter = s.counter ∧
    (bumpAt s idx).deficits.length = s.deficits.length := by
  unfold bumpAt
  split_ifs <;> exact ⟨rfl, rfl, rfl, by simp⟩

theorem bumpAt_defAt_ne (s : Port) {idx i : ℕ} (h : idx ≠ i) :
    defAt (bumpAt s idx) i = defAt s i := by
  unfold bumpAt defAt
  split_ifs
  · exact getD_set_ne _ _ h
  · rfl

theorem drrSkip_inv : ∀ (r : ℕ) (s : Port),
    (drrSkip r s).2.queues = s.queues ∧ (drrSkip r s).2.quanta = s.quanta ∧
    (drrSkip r s).2.deficits.length = s.deficits.length := by
  intro r
  induction r with
  | zero => exact fun s => ⟨rfl, rfl, rfl⟩
  | succ r ih =>
    intro s
    unfold drrSkip
    split_ifs with h
    · obtain ⟨q1, q2, q3⟩ := ih { s with
        deficits := s.deficits.set (s.counter % s.queues.length) 0,
        counter := s.counter + 1, should_bump := true }
      refine ⟨q1, q2, q3.trans ?_⟩
      simp
    · exact ⟨rfl, rfl, rfl⟩

theorem drrSkip_true_nonempty : ∀ (r : ℕ) (s s1 : Port),
    drrSkip r s = (true, s1) → qAt s1 (s1.counter % s1.queues.length) ≠ [] := by
  intro r
  induction r with
  | zero =>
    intro s s1 h
    unfold drrSkip at h
    simp at h
  | succ r ih =>
    intro s s1 h
    unfold drrSkip at h
    split_ifs at h with hq
    · exact ih _ _ h
    · cases h
      intro hc
      apply hq
      rw [List.isEmpty_iff]
      simpa [qAt] using hc

theorem drrSkip_false_covered : ∀ (r : ℕ) (s s1 : Port),
    drrSkip r s = (false, s1) → ∀ k, k < r →
      s.queues.getD ((s.counter + k) % s.queues.length) [] = [] := by
  intro r
  induction r with
  | zero => intro s s1 _ k hk; omega
  | succ r ih =>
    intro s s1 h k hk
    unfold drrSkip at h
    split_ifs at h with hq
    · rcases k with _ | k
      · rw [Nat.add_zero]
        exact List.isEmpty_iff.1 hq
      · have := ih _ _ h k (by omega)
        simpa [Nat.add_assoc, Nat.add_comm 1 k] using this
    · cases h

theorem drrSkip_all_empty : ∀ (r : ℕ) (s : Port),
    (∀ q ∈ s.queues, q = []) → (drrSkip r s).1 = false := by
  intro r
  induction r with
  | zero => intro s _; rfl
  | succ r ih =>
    intro s hall
    unfold drrSkip
    have hq : (s.queues.getD (s.counter % s.queues.length) []).isEmpty = true := by
      rcases Nat.lt_or_ge (s.counter % s.queues.length) s.queues.length with hlt | hge
      · rw [List.isEmpty_iff]
        exact hall _ (getD_mem _ hlt)
      · rw [getD_default _ hge]
        rfl
    rw [if_pos hq]
    exact ih _ hall

theorem bumpAt_defAt_self (s : Port) (idx : ℕ) (h : idx < s.deficits.length) :
    defAt (bumpAt s idx) idx =
      if s.should_bump then defAt s idx + s.quanta.getD idx 0 else defAt s idx := by
  unfold bumpAt defAt
  split_ifs with hb
  · exact getD_set_self _ _ h
  · rfl

/-- Termination of the second DRR loop: with positive quanta and a
designated non-empty sub-queue `i`, the loop returns before the fuel
runs out whenever the fuel exceeds the measure `muDrr`. -/
theorem drrLoop_total : ∀ (fuel : ℕ) (s : Port) (i : ℕ),
    s.deficits.length = s.queues.length → s.quanta.length = s.queues.length →
    (∀ q ∈ s.quanta, 0 < q) → i < s.queues.length → qAt s i ≠ [] →
    muDrr s i < fuel → (drrLoop fuel s).isSome = true := by
  intro fuel
  induction fuel with
  | zero => intro s i _ _ _ _ _ hmu; omega
  | succ fuel ih =>
    intro s i hd hq hpos hi hne hmu
    have hn : 0 < s.queues.length := by omega
    have hidx : s.counter % s.queues.length < s.queues.length := Nat.mod_lt _ hn
    unfold drrLoop
    cases hq0 : s.queues.getD (s.counter % s.queues.length) [] with
    | nil =>
      have hneidx : s.counter % s.queues.length ≠ i := by
        intro he
        apply hne
        unfold qAt
        rw [← he]
        exact hq0
      apply ih _ i
      · simpa using hd
      · exact hq
      · exact hpos
      · exact hi
      · exact hne
      · have hdist := distC_succ_ne s.queues.length s.counter i hi hneidx
        have hdef : defAt { s with
            deficits := s.deficits.set (s.counter % s.queues.length) 0,
            counter := s.counter + 1, should_bump := true } i = defAt s i :=
          getD_set_ne _ _ hneidx
        have e1 : muDrr { s with
            deficits := s.deficits.set (s.counter % s.queues.length) 0,
            counter := s.counter + 1, should_bump := true } i =
            (costAt s i - defAt s i) * s.queues.length +
              distC s.queues.length (s.counter + 1) i := by
          unfold muDrr
          rw [hdef]
          rfl
        have e2 : muDrr s i = (costAt s i - defAt s i) * s.queues.length +
            distC s.queues.length s.counter i +
            (if s.should_bump then 0 else s.queues.length) := rfl
        rw [e1]
        rw [e2] at hmu
        omega
    | cons pkt rest =>
      dsimp only
      by_cases hcost : pkt.size ≤ (bumpAt s (s.counter % s.queues.length)).deficits.getD
          (s.counter % s.queues.length) 0
      · rw [if_pos hcost]
        rfl
      · rw [if_neg hcost]
        obtain ⟨hbq, hbqa, hbc, hbl⟩ := bumpAt_queues s (s.counter % s.queues.length)
        apply ih _ i
        · show (bumpAt s (s.counter % s.queues.length)).deficits.length =
            (bumpAt s (s.counter % s.queues.length)).queues.length
          rw [hbl, hbq]
          exact hd
        · show (bumpAt s (s.counter % s.queues.length)).quanta.length =
            (bumpAt s (s.counter % s.queues.length)).queues.length
          rw [hbqa, hbq]
          exact hq
        · show ∀ q ∈ (bumpAt s (s.counter % s.queues.length)).quanta, 0 < q
          rw [hbqa]
          exact hpos
        · show i < (bumpAt s (s.counter % s.queues.length)).queues.length
          rw [hbq]
          exact hi
        · show (bumpAt s (s.counter % s.queues.length)).queues.getD i [] ≠ []
          rw [hbq]
          exact hne
        · -- the measure decreases
          have hcost' : costAt { bumpAt s (s.counter % s.queues.length) with
              counter := s.counter + 1, should_bump := true } i = costAt s i := by
            unfold costAt qAt
            rw [show ({ bumpAt s (s.counter % s.queues.length) with
              counter := s.counter + 1, should_bump := true } : Port).queues =
                s.queues from hbq]
          have hlen' : ({ bumpAt s (s.counter % s.queues.length) with
              counter := s.counter + 1, should_bump := true } : Port).queues.length =
              s.queues.length := by rw [hbq]
          have e1 : muDrr { bumpAt s (s.counter % s.queues.length) with
              counter := s.counter + 1, should_bump := true } i =
              (costAt s i - defAt (bumpAt s (s.counter % s.queues.length)) i) *
                s.queues.length + distC s.queues.length (s.counter + 1) i := by
            unfold muDrr
            rw [hcost', hlen']
            rfl
          have e2 : muDrr s i = (costAt s i - defAt s i) * s.queues.length +
              distC s.queues.length s.counter i +
              (if s.should_bump then 0 else s.queues.length) := rfl
          rw [e1]
          rw [e2] at hmu
          by_cases hii : s.counter % s.queues.length = i
          · have hgetd : s.queues.getD i [] = pkt :: rest := by rw [← hii]; exact hq0
            have hcost_i : costAt s i = pkt.size := by
              unfold costAt qAt
              rw [hgetd]
            have d0 : distC s.queues.length s.counter i = 0 := distC_zero _ _ _ hii
            have d1 : distC s.queues.length (s.counter + 1) i = s.queues.length - 1 :=
              distC_succ_self _ _ _ hi hii
            have hdl : i < s.deficits.length := by omega
            have hbself := bumpAt_defAt_self s (s.counter % s.queues.length)
              (by omega)
            have hcost2 : ¬ (pkt.size ≤ defAt (bumpAt s (s.counter % s.queues.length)) i) := by
              unfold defAt
              rw [← hii]
              exact hcost
            by_cases hbmp : s.should_bump = true
            · rw [if_pos hbmp] at hbself
              have hdef : defAt (bumpAt s (s.counter % s.queues.length)) i =
                  defAt s i + s.quanta.getD i 0 := by
                calc defAt (bumpAt s (s.counter % s.queues.length)) i
                    = defAt (bumpAt s (s.counter % s.queues.length))
                        (s.counter % s.queues.length) := by rw [hii]
                  _ = defAt s (s.counter % s.queues.length) +
                        s.quanta.getD (s.counter % s.queues.length) 0 := hbself
                  _ = defAt s i + s.quanta.getD i 0 := by rw [hii]
              have hqi : 0 < s.quanta.getD i 0 :=
                hpos _ (getD_mem _ (by omega))
              have hQle : s.quanta.getD i 0 ≤ costAt s i - defAt s i := by
                rw [hdef, ← hcost_i] at hcost2
                omega
              have hsplit : (costAt s i - defAt s i) * s.queues.length =
                  (costAt s i - defAt (bumpAt s (s.counter % s.queues.length)) i) *
                    s.queues.length + s.quanta.getD i 0 * s.queues.length := by
                rw [hdef]
                rw [show costAt s i - defAt s i =
                  (costAt s i - (defAt s i + s.quanta.getD i 0)) + s.quanta.getD i 0
                  from by omega]
                rw [Nat.add_mul]
              have hQn : s.queues.length ≤ s.quanta.getD i 0 * s.queues.length :=
                Nat.le_mul_of_pos_left _ hqi
              simp only [hbmp, if_true] at hmu
              omega
            · have hbmpf : s.should_bump = false := by
                cases hb : s.should_bump
                · rfl
                · exact absurd hb hbmp
              rw [if_neg (by rw [hbmpf]; exact Bool.false_ne_true)] at hbself
              have hdef : defAt (bumpAt s (s.counter % s.queues.length)) i = defAt s i := by
                calc defAt (bumpAt s (s.counter % s.queues.length)) i
                    = defAt (bumpAt s (s.counter % s.queues.length))
                        (s.counter % s.queues.length) := by rw [hii]
                  _ = defAt s (s.counter % s.queues.length) := hbself
                  _ = defAt s i := by rw [hii]
              rw [hdef]
              simp only [hbmpf, Bool.false_eq_true, if_false] at hmu
              omega
          · have hdef : defAt (bumpAt s (s.counter % s.queues.length)) i = defAt s i :=
              bumpAt_defAt_ne s hii
            have hdist := distC_succ_ne s.queues.length s.counter i hi hii
            rw [hdef]
            omega

/-- A successful run of the second loop leaves the queues untouched,
preserves the deficit-vector length, and returns the index of a
non-empty sub-queue. -/
theorem drrLoop_some_inv : ∀ (fuel : ℕ) (s : Port) (r : ℕ) (s' : Port),
    drrLoop fuel s = some (r, s') →
    s'.queues = s.queues ∧ s'.quanta = s.quanta ∧
    s'.deficits.length = s.deficits.length ∧ s.queues.getD r [] ≠ [] := by
  intro fuel
  induction fuel with
  | zero => intro s r s' h; exact absurd h (by simp [drrLoop])
  | succ fuel ih =>
    intro s r s' h
    unfold drrLoop at h
    cases hq0 : s.queues.getD (s.counter % s.queues.length) [] with
    | nil =>
      rw [hq0] at h
      dsimp only at h
      obtain ⟨f1, f2, f3, f4⟩ := ih _ _ _ h
      exact ⟨f1, f2, f3.trans (by simp), f4⟩
    | cons pkt rest =>
      rw [hq0] at h
      dsimp only at h
      obtain ⟨hbq, hbqa, _, hbl⟩ := bumpAt_queues s (s.counter % s.queues.length)
      split_ifs at h with hcost
      · obtain ⟨h1, h2⟩ := Prod.mk.injEq _ _ _ _ ▸ Option.some.injEq _ _ ▸ h
        refine ⟨?_, ?_, ?_, ?_⟩
        · rw [← h2]
          exact hbq
        · rw [← h2]
          exact hbqa
        · rw [← h2]
          simpa using hbl
        · rw [← h1, hq0]
          simp
      · obtain ⟨f1, f2, f3, f4⟩ := ih _ _ _ h
        refine ⟨f1.trans hbq, f2.trans hbqa, f3.trans (by simpa using hbl), ?_⟩
        rw [← hbq]
        exact f4

/-- Claim C5: for every well-formed port state with strictly positive
quanta, `pick_dequeue_index` terminates within the explicit fuel bound
(one unbumped visit plus at most `head_cost` crediting rotations over
`n` queues), and it returns `None` exactly when every sub-queue is
empty, otherwise `Some idx` with sub-queue `idx` non-empty
(src/port.rs lines 29-76). -/
theorem pick_dequeue_index_spec (s : Port)
    (hd : s.deficits.length = s.queues.length)
    (hq : s.quanta.length = s.queues.length)
    (hpos : ∀ q ∈ s.quanta, 0 < q) :
    ∃ r s', pick_dequeue_index s = some (r, s') ∧
      (r = none ↔ ∀ q ∈ s.queues, q = []) ∧
      (∀ i, r = some i → s.queues.getD i [] ≠ []) := by
  cases hsk : drrSkip s.queues.length s with
  | mk found s1 =>
    have e1 : s1.queues = s.queues := by
      have := (drrSkip_inv s.queues.length s).1
      rw [hsk] at this
      exact this
    have e2 : s1.quanta = s.quanta := by
      have := (drrSkip_inv s.queues.length s).2.1
      rw [hsk] at this
      exact this
    have e3 : s1.deficits.length = s.deficits.length := by
      have := (drrSkip_inv s.queues.length s).2.2
      rw [hsk] at this
      exact this
    cases found with
    | false =>
      refine ⟨none, s1, ?_, ?_, ?_⟩
      · unfold pick_dequeue_index
        rw [hsk]
      · constructor
        · intro _ q hqm
          obtain ⟨j, hj, hget⟩ := List.mem_iff_getElem.1 hqm
          have hcov := drrSkip_false_covered s.queues.length s s1 hsk
            (distC s.queues.length s.counter j) (distC_lt _ _ _ (by omega))
          rw [distC_add _ _ _ hj] at hcov
          have hgd : s.queues.getD j [] = q := by
            rw [List.getD_eq_getElem?_getD, List.getElem?_eq_getElem hj, hget]
            rfl
          rw [hgd] at hcov
          exact hcov
        · intro _
          rfl
      · intro i hi
        exact absurd hi (by simp)
    | true =>
      have hne := drrSkip_true_nonempty s.queues.length s s1 hsk
      have hn : 0 < s1.queues.length := by
        by_contra h0
        push_neg at h0
        apply hne
        unfold qAt
        exact getD_default _ (by omega)
      have hidx : s1.counter % s1.queues.length < s1.queues.length := Nat.mod_lt _ hn
      have htot := drrLoop_total
        (s1.queues.length * costAt s1 (s1.counter % s1.queues.length) +
          s1.queues.length + 1) s1 (s1.counter % s1.queues.length)
        (by rw [e3, e1]; exact hd)
        (by rw [e2, e1]; exact hq)
        (by rw [e2]; exact hpos)
        hidx hne ?bound
      case bound =>
        unfold muDrr
        rw [distC_zero _ _ _ rfl]
        have h2 : (costAt s1 (s1.counter % s1.queues.length) -
            defAt s1 (s1.counter % s1.queues.length)) * s1.queues.length ≤
            s1.queues.length * costAt s1 (s1.counter % s1.queues.length) := by
          rw [Nat.mul_comm]
          exact Nat.mul_le_mul_left _ (Nat.sub_le _ _)
        have h3 : (if s1.should_bump then 0 else s1.queues.length) ≤ s1.queues.length := by
          split_ifs <;> omega
        omega
      cases hdl : drrLoop (s1.queues.length * costAt s1 (s1.counter % s1.queues.length) +
          s1.queues.length + 1) s1 with
      | none =>
        rw [hdl] at htot
        simp at htot
      | some rp =>
        obtain ⟨r2, s2⟩ := rp
        obtain ⟨f1, f2, f3, f4⟩ := drrLoop_some_inv _ _ _ _ hdl
        refine ⟨some r2, s2, ?_, ?_, ?_⟩
        · unfold pick_dequeue_index
          rw [hsk]
          dsimp only
          rw [hdl]
          rfl
        · constructor
          · intro hcon
            exact absurd hcon (by simp)
          · intro hall
            have hn' : 0 < s.queues.length := by rw [← e1]; exact hn
            exfalso
            apply hne
            unfold qAt
            rw [e1]
            exact hall _ (getD_mem _ (Nat.mod_lt _ hn'))
        · intro i hi
          have hri : r2 = i := by
            injection hi
          rw [← hri, ← e1]
          exact f4

/-- A one-queue port holding a single 7-byte packet, the witness
input for the DRR-termination claim. -/
def portW5 : Port :=
  { queues := [[mkTestPkt 0 0 7]], quanta := [3], deficits := [0],
    counter := 0, should_bump := true }

theorem pick_dequeue_index_spec_witness :
    ∃ r s', pick_dequeue_index portW5 = some (r, s') ∧
      (r = none ↔ ∀ q ∈ portW5.queues, q = []) ∧
      (∀ i, r = some i → portW5.queues.getD i [] ≠ []) :=
  pick_dequeue_index_spec portW5 rfl rfl (by decide)

/-- A skip pass can only clear a deficit, never credit it. -/
theorem drrSkip_deficit_zero_or_same : ∀ (r : ℕ) (s : Port) (i : ℕ),
    (drrSkip r s).2.deficits.getD i 0 = 0 ∨
    (drrSkip r s).2.deficits.getD i 0 = s.deficits.getD i 0 := by
  intro r
  induction r with
  | zero => intro s i; exact Or.inr rfl
  | succ r ih =>
    intro s i
    unfold drrSkip
    split_ifs with hq
    · rcases ih ({ s with
          deficits := s.deficits.set (s.counter % s.queues.length) 0,
          counter := s.counter + 1,
          should_bump := true }) i with h0 | hsame
      · exact Or.inl h0
      · by_cases hii : s.counter % s.queues.length = i
        · by_cases hlt : i < s.deficits.length
          · left
            rw [hsame]
            show (s.deficits.set (s.counter % s.queues.length) 0).getD i 0 = 0
            rw [hii]
            exact getD_set_self _ _ hlt
          · right
            rw [hsame]
            show (s.deficits.set (s.counter % s.queues.length) 0).getD i 0 =
              s.deficits.getD i 0
            rw [hii, getD_default _ (by simpa using Nat.le_of_not_lt hlt),
              getD_default _ (Nat.le_of_not_lt hlt)]
        · right
          rw [hsame]
          exact getD_set_ne _ _ hii
    · exact Or.inr rfl

/-- The second loop never credits an empty sub-queue: its deficit is
either cleared by a scan or untouched. -/
theorem drrLoop_deficit_zero_or_same : ∀ (fuel : ℕ) (s : Port) (r : ℕ) (s' : Port) (i : ℕ),
    s.queues.getD i [] = [] → drrLoop fuel s = some (r, s') →
    s'.deficits.getD i 0 = 0 ∨ s'.deficits.getD i 0 = s.deficits.getD i 0 := by
  intro fuel
  induction fuel with
  | zero => intro s r s' i _ h; exact absurd h (by simp [drrLoop])
  | succ fuel ih =>
    intro s r s' i hemp h
    unfold drrLoop at h
    cases hq0 : s.queues.getD (s.counter % s.queues.length) [] with
    | nil =>
      rw [hq0] at h
      dsimp only at h
      rcases ih _ _ _ i (by simpa using hemp) h with h0 | hsame
      · exact Or.inl h0
      · by_cases hii : s.counter % s.queues.length = i
        · by_cases hlt : i < s.deficits.length
          · left
            rw [hsame]
            show (s.deficits.set (s.counter % s.queues.length) 0).getD i 0 = 0
            rw [hii]
            exact getD_set_self _ _ hlt
          · right
            rw [hsame]
            show (s.deficits.set (s.counter % s.queues.length) 0).getD i 0 =
              s.deficits.getD i 0
            rw [hii, getD_default _ (by simpa using Nat.le_of_not_lt hlt),
              getD_default _ (Nat.le_of_not_lt hlt)]
        · right
          rw [hsame]
          exact getD_set_ne _ _ hii
    | cons pkt rest =>
      rw [hq0] at h
      dsimp only at h
      have hne_i : s.counter % s.queues.length ≠ i := by
        intro he
        rw [he, hemp] at hq0
        exact List.noConfusion hq0
      split_ifs at h with hcost
      · right
        obtain ⟨h1, h2⟩ := Prod.mk.injEq _ _ _ _ ▸ Option.some.injEq _ _ ▸ h
        rw [← h2]
        show ((bumpAt s (s.counter % s.queues.length)).deficits.set
          (s.counter % s.queues.length) _).getD i 0 = s.deficits.getD i 0
        rw [getD_set_ne _ _ hne_i]
        exact bumpAt_defAt_ne s hne_i
      · rcases ih _ _ _ i (by
            show (bumpAt s (s.counter % s.queues.length)).queues.getD i [] = []
            rw [(bumpAt_queues s (s.counter % s.queues.length)).1]
            exact hemp) h with h0 | hsame
        · exact Or.inl h0
        · right
          rw [hsame]
          exact bumpAt_defAt_ne s hne_i

/-- A full skip pass that ends in `None` has cleared every position it
visited. -/
theorem drrSkip_false_cleared : ∀ (r : ℕ) (s s1 : Port),
    s.deficits.length = s.queues.length → drrSkip r s = (false, s1) →
    ∀ k, k < r → s1.deficits.getD ((s.counter + k) % s.queues.length) 0 = 0 := by
  intro r
  induction r with
  | zero => intro s s1 _ _ k hk; omega
  | succ r ih =>
    intro s s1 hd h k hk
    unfold drrSkip at h
    split_ifs at h with hq
    · rcases k with _ | k
      · rw [Nat.add_zero]
        by_cases hn : 0 < s.queues.length
        · have hlt : s.counter % s.queues.length < s.deficits.length := by
            have := Nat.mod_lt s.counter hn
            omega
          rcases drrSkip_deficit_zero_or_same r ({ s with
              deficits := s.deficits.set (s.counter % s.queues.length) 0,
              counter := s.counter + 1,
              should_bump := true })
              (s.counter % s.queues.length) with h0 | hsame
          · rw [h] at h0
            exact h0
          · rw [h] at hsame
            rw [hsame]
            exact getD_set_self _ _ hlt
        · have hlen : s1.deficits.length = 0 := by
            have := (drrSkip_inv r ({ s with
              deficits := s.deficits.set (s.counter % s.queues.length) 0,
              counter := s.counter + 1,
              should_bump := true })).2.2
            rw [h] at this
            simp at this
            omega
          exact getD_default _ (by omega)
      · have := ih _ _ (by simpa using hd) h k (by omega)
        simpa [Nat.add_assoc, Nat.add_comm 1 k] using this
    · cases h

/-- Claim C6 (amended): across one `pick_dequeue_index` call, an empty
sub-queue's deficit is never credited — it is either cleared by the
scan or left untouched; and after a scan that returns `None` every
deficit is zero.  The reset happens when the rotating scan reaches the
empty sub-queue, not at the instant the queue drains, so between those
two moments an empty sub-queue can retain leftover deficit (see the
counterexample). -/
theorem pick_dequeue_index_deficits (s : Port)
    (hd : s.deficits.length = s.queues.length)
    (r : Option ℕ) (s' : Port) (hpick : pick_dequeue_index s = some (r, s')) :
    (r = none → ∀ i, i < s.queues.length → s'.deficits.getD i 0 = 0) ∧
    (∀ i, i < s.queues.length → s.queues.getD i [] = [] →
      s'.deficits.getD i 0 = 0 ∨ s'.deficits.getD i 0 = s.deficits.getD i 0) := by
  unfold pick_dequeue_index at hpick
  cases hsk : drrSkip s.queues.length s with
  | mk found s1 =>
    rw [hsk] at hpick
    cases found with
    | false =>
      obtain ⟨h1, h2⟩ : none = r ∧ s1 = s' := by simpa using hpick
      constructor
      · intro _ i hi
        have hcov := drrSkip_false_cleared s.queues.length s s1 hd hsk
          (distC s.queues.length s.counter i) (distC_lt _ _ _ (by omega))
        rw [distC_add _ _ _ hi] at hcov
        rw [← h2]
        exact hcov
      · intro i _ _
        rw [← h2]
        rcases drrSkip_deficit_zero_or_same s.queues.length s i with h0 | hsame
        · rw [hsk] at h0
          exact Or.inl h0
        · rw [hsk] at hsame
          exact Or.inr hsame
    | true =>
      have hpick' : Option.map (fun r => (some r.1, r.2))
          (drrLoop (s1.queues.length * costAt s1 (s1.counter % s1.queues.length) +
            s1.queues.length + 1) s1) = some (r, s') := hpick
      cases hdl : drrLoop (s1.queues.length * costAt s1 (s1.counter % s1.queues.length) +
          s1.queues.length + 1) s1 with
      | none =>
        rw [hdl] at hpick'
        exact absurd hpick' (by simp)
      | some rp =>
        obtain ⟨r2, s2⟩ := rp
        rw [hdl] at hpick'
        obtain ⟨h1, h2⟩ : some r2 = r ∧ s2 = s' := by simpa using hpick'
        constructor
        · intro hno
          rw [← h1] at hno
          exact absurd hno (by simp)
        · intro i _ hemp
          have e1 : s1.queues = s.queues := by
            have := (drrSkip_inv s.queues.length s).1
            rw [hsk] at this
            exact this
          have hemp1 : s1.queues.getD i [] = [] := by rw [e1]; exact hemp
          rcases drrLoop_deficit_zero_or_same _ _ _ _ i hemp1 hdl with h0 | hsame
          · rw [← h2]
            exact Or.inl h0
          · rcases drrSkip_deficit_zero_or_same s.queues.length s i with k0 | ksame
            · rw [hsk] at k0
              rw [← h2, hsame]
              exact Or.inl k0
            · rw [hsk] at ksame
              rw [← h2, hsame]
              exact Or.inr ksame

/-- A one-queue port holding one 5-byte packet with quantum 10: the
witness input for the deficit-reset claim; picking spends 5 of the 10
credited bytes. -/
def portW6 : Port :=
  { queues := [[mkTestPkt 0 0 5]], quanta := [10], deficits := [0],
    counter := 0, should_bump := true }

/-- The port state `pick_dequeue_index` leaves behind on `portW6`. -/
def portW6' : Port :=
  { queues := [[mkTestPkt 0 0 5]], quanta := [10], deficits := [5],
    counter := 0, should_bump := false }

theorem pick_dequeue_index_deficits_witness :
    ((some 0 : Option ℕ) = none → ∀ i, i < portW6.queues.length →
      portW6'.deficits.getD i 0 = 0) ∧
    (∀ i, i < portW6.queues.length → portW6.queues.getD i [] = [] →
      portW6'.deficits.getD i 0 = 0 ∨
      portW6'.deficits.getD i 0 = portW6.deficits.getD i 0) :=
  pick_dequeue_index_deficits portW6 rfl (some 0) portW6' (by decide)

/-- The initial bottleneck used by the deficit-reset counterexample:
two sub-queues with quantum 1000 each. -/
def btlC6 : Btl :=
  { port := Port.new [1000, 1000], bandwidth := 8000000000, qsize := 0,
    marking_threshold := 100000, status := BtlStatus.blocked }

/-- Claim C6 (counterexample): a single `Receive` of a 10-byte packet
into the blocked bottleneck services the packet at once; the dequeue
leaves sub-queue 0 empty while, quantum 1000 having been credited and
only 10 spent, its deficit is 990 — an empty sub-queue holding a
non-zero deficit, which persists until a later scan passes it and
which a refill before that scan would inherit. -/
theorem empty_subqueue_holds_nonzero_deficit :
    ((btlC6.receive 48 (mkTestPkt 0 0 10)).map
      (fun rb => (rb.2.port.queues.getD 0 [], rb.2.port.deficits.getD 0 0)))
      = some ([], 990) ∧ (990 : ℕ) ≠ 0 := by
  constructor
  · with_unfolding_all rfl
  · decide

/-- The bottleneck input for the marking claim: a running bottleneck
with a 50-byte packet in sub-queue 0 and a 100-byte packet in
sub-queue 1, marking threshold 60 and aggregate `qsize` 150. -/
def btlC1 : Btl :=
  { port := { queues := [[mkTestPkt 0 0 50], [mkTestPkt 1 1 100]],
              quanta := [1000, 1000], deficits := [0, 0],
              counter := 0, should_bump := true },
    bandwidth := 8000000000, qsize := 150, marking_threshold := 60,
    status := BtlStatus.running }

/-- The state `Bottleneck::step` leaves `btlC1` in after servicing the
50-byte packet of sub-queue 0. -/
def btlC1' : Btl :=
  { port := { queues := [[], [mkTestPkt 1 1 100]],
              quanta := [1000, 1000], deficits := [950, 0],
              counter := 0, should_bump := false },
    bandwidth := 8000000000, qsize := 100, marking_threshold := 60,
    status := BtlStatus.running }

/-- Claim C1 (amended): the `marked` flag of every Ack scheduled by
`Bottleneck::step` compares the marking threshold against the
bottleneck-wide aggregate `qsize` after it has been decremented by the
serviced packet's size (which is exactly the `qsize` of the post-step
state) — not against the serviced packet's own sub-queue
occupancy. -/
theorem step_ack_marking (szHdr : ℕ) (s : Btl) (evs : List Ev) (s' : Btl)
    (hstep : Btl.step szHdr s = some (evs, s'))
    (src fid : ℕ) (ack : Ack) (d : ℕ)
    (hmem : Ev.srcRcvAck src fid ack d ∈ evs) :
    ack.marked = decide (s.marking_threshold < s'.qsize) := by
  unfold Btl.step at hstep
  split_ifs at hstep with hst
  cases hdq : s.port.dequeueDrr with
  | none =>
    rw [hdq] at hstep
    exact absurd hstep (by simp)
  | some rp =>
    obtain ⟨op, port1⟩ := rp
    rw [hdq] at hstep
    cases op with
    | none =>
      obtain ⟨h1, h2⟩ : ([] : List Ev) = evs ∧
          { s with port := port1, status := BtlStatus.blocked } = s' := by
        simpa using hstep
      rw [← h1] at hmem
      simp at hmem
    | some pkt =>
      have hstep' : some (([Ev.btlStep (length_ns s.bandwidth pkt.size),
          Ev.srcRcvAck pkt.source_id pkt.flow_id { nr_bytes := pkt.size - szHdr, marked := decide (s.marking_threshold < s.qsize - pkt.size) } (length_ns s.bandwidth pkt.size + (pkt.btl2dst + (pkt.src2btl + pkt.btl2dst)))] ++
          (if pkt.is_last
           then [Ev.srcFlowDepart pkt.source_id pkt.flow_id
                   (length_ns s.bandwidth pkt.size + pkt.btl2dst)]
           else []),
          { s with port := port1, qsize := s.qsize - pkt.size })) =
          some (evs, s') := hstep
      injection hstep' with hpair
      injection hpair with h1 h2
      subst h1
      subst h2
      cases hlast : pkt.is_last with
      | false =>
        rw [hlast] at hmem
        simp at hmem
        obtain ⟨-, -, hack, -⟩ := hmem
        rw [hack]
      | true =>
        rw [hlast] at hmem
        simp at hmem
        obtain ⟨-, -, hack, -⟩ := hmem
        rw [hack]

theorem step_ack_marking_witness :
    (Ack.mk 2 true).marked = decide (btlC1.marking_threshold < btlC1'.qsize) :=
  step_ack_marking 48 btlC1
    [Ev.btlStep 50, Ev.srcRcvAck 0 0 (Ack.mk 2 true) 50] btlC1'
    (by with_unfolding_all rfl) 0 0 (Ack.mk 2 true) 50 (by decide)

/-- Claim C1 (counterexample): in `btlC1` the serviced packet comes
from sub-queue 0, which holds 50 bytes at the moment of dequeue (and 0
bytes afterwards) — at or below the threshold of 60 either way — yet
the scheduled Ack has `marked = true`, because the source compares the
threshold against the aggregate 150 − 50 = 100 bytes queued across
both sub-queues. -/
theorem marking_ignores_own_subqueue :
    Btl.step 48 btlC1 =
      some ([Ev.btlStep 50,
             Ev.srcRcvAck 0 0 { nr_bytes := 2, marked := true } 50], btlC1') ∧
    ((btlC1.port.queues.getD 0 []).map Packet.size).sum = 50 ∧
    ¬ (btlC1.marking_threshold < 50) ∧ ¬ (btlC1.marking_threshold < 0) := by
  refine ⟨?_, ?_, ?_, ?_⟩
  · with_unfolding_all rfl
  · with_unfolding_all rfl
  · decide
  · decide

end Minim
